import Mathlib

/-!
# Verification of the ETL GDP / Bank-data pipeline

A shallow embedding of the two ETL scripts (`ETL_BankData.py` and
`ETL_GDP.py`) of the repository, together with theorems settling the
specification claims about them.

Conventions of the embedding:
* Python floats are modelled as rationals (`ℚ`); `round(x, 2)` / pandas
  `.round(2)` is modelled as exact decimal rounding to 2 places with
  ties-to-even (the rounding rule of IEEE/NumPy), on rationals.
* Python string operations `.strip()`, `.replace(",", "")` and the
  membership test `'—' in s` are modelled at the character-list level.
* `float(s)` is modelled by `parseFloat`, covering plain decimal literals
  (optional sign, digits, optional fractional part); exotic forms such as
  `inf`, `nan` or exponents are outside the model.
* Fallible code (Python exceptions) is modelled with `Except String`.
-/

namespace ETL

/- Batteries marks the `Rat` arithmetic operations `@[irreducible]`, which
blocks kernel evaluation of concrete rational arithmetic; restore the
default reducibility so concrete runs of the pipeline can be settled by
`decide`. -/
attribute [local semireducible] Rat.mul Rat.add Rat.sub Rat.inv

/-- Equality of modelled run results is decidable (so concrete runs of the
pipeline can be checked by evaluation). -/
instance {ε α : Type} [DecidableEq ε] [DecidableEq α] : DecidableEq (Except ε α) := fun a b =>
  match a, b with
  | .error e, .error f => decidable_of_iff (e = f) (by simp)
  | .error _, .ok _ => isFalse (by simp)
  | .ok _, .error _ => isFalse (by simp)
  | .ok a, .ok b => decidable_of_iff (a = b) (by simp)

/-! ## Character and string primitives -/

/-- Whitespace characters removed by Python's `str.strip()`
(restricted to the ASCII whitespace that occurs in the data). -/
def isSpaceChar (c : Char) : Bool :=
  c == ' ' || c == '\t' || c == '\n' || c == '\r'

/-- Model of Python's `str.strip()`: drop leading and trailing whitespace. -/
def strip (s : String) : String :=
  String.mk (((s.toList.dropWhile isSpaceChar).reverse.dropWhile isSpaceChar).reverse)

/-- Model of Python's `s.replace(",", "")` (and of the pandas
`.replace({',': ''}, regex=True)` used by the GDP transform): removing every
comma from a string is exactly filtering the comma character out. -/
def removeCommas (s : String) : String :=
  String.mk (s.toList.filter (fun c => c ≠ ','))

/-- Model of Python's substring test `'—' in s` for the one-character
em-dash sentinel. -/
def hasEmDash (s : String) : Bool :=
  s.toList.any (fun c => c == '—')

/-! ## Decimal digits -/

/-- The character for a decimal digit value. -/
def digitChar (d : Nat) : Char := Char.ofNat (48 + d)

/-- The digit value of a character (meaningful on `'0'`–`'9'`). -/
def charVal (c : Char) : Nat := c.toNat - 48

/-- Value of a digit string read most-significant first. -/
def digitsVal (l : List Char) : Nat :=
  l.foldl (fun acc c => 10 * acc + charVal c) 0

/-- Little-endian decimal digits of `n`, with explicit fuel (structural, so
the kernel can evaluate it). `natDigitsLE f n` is correct whenever `n ≤ f`. -/
def natDigitsLE : Nat → Nat → List Nat
  | 0, _ => []
  | f + 1, n => if n = 0 then [] else n % 10 :: natDigitsLE f (n / 10)

/-- Decimal rendering of a natural number, as characters. -/
def natStrChars (n : Nat) : List Char :=
  if n = 0 then ['0'] else ((natDigitsLE n n).map digitChar).reverse

/-! ## Parsing of decimal literals (model of Python `float(s)`) -/

/-- Body of `parseUnsigned` once the input is split into its leading
digits `ip` and the remainder `rest`. -/
def parseUnsignedAux (ip rest : List Char) : Option ℚ :=
  match rest with
  | [] => if ip = [] then none else some (digitsVal ip)
  | c :: fp =>
    if c = '.' then
      if fp.all (fun d => d.isDigit) && (!ip.isEmpty || !fp.isEmpty) then
        some ((digitsVal ip : ℚ) + (digitsVal fp : ℚ) / (10 ^ fp.length))
      else none
    else none

/-- Parse an unsigned decimal literal: digits, optionally followed by a
point and more digits, with at least one digit overall (Python accepts
`"5."` and `".5"` but not `"."` or `""`). -/
def parseUnsigned (l : List Char) : Option ℚ :=
  parseUnsignedAux (l.takeWhile (fun c => c.isDigit)) (l.dropWhile (fun c => c.isDigit))

/-- Parse a signed decimal literal. -/
def parseFloatChars (l : List Char) : Option ℚ :=
  match l with
  | [] => none
  | c :: rest =>
    if c = '-' then (parseUnsigned rest).map (fun q => -q)
    else if c = '+' then parseUnsigned rest
    else parseUnsigned l

/-- Model of Python's `float(s)` on plain decimal literals. -/
def parseFloat (s : String) : Option ℚ := parseFloatChars s.toList

/-! ## Rounding -/

/-- Round a rational to the nearest integer, ties to even (the rounding of
NumPy/pandas `.round`). `q.num.fdiv q.den` is `⌊q⌋` (floor division by the
positive denominator), written so the kernel can evaluate it. -/
def rhe (q : ℚ) : ℤ :=
  let f := q.num.fdiv (q.den : ℤ)
  let r := q - (f : ℚ)
  if r < 1 / 2 then f
  else if 1 / 2 < r then f + 1
  else if f % 2 = 0 then f else f + 1

/-- Model of `.round(2)`: round to 2 decimal places, ties to even. -/
def round2 (q : ℚ) : ℚ := (rhe (q * 100) : ℚ) / 100

/-! ## Data model

A table cell as seen by the extraction code: its full text (the
`.text` of the BeautifulSoup element) and, when the cell contains an
`<a>` element, the list of that element's contents (modelled as strings);
`aContents = none` models `find('a') is None`. -/

structure Cell where
  text : String
  aContents : Option (List String)
deriving DecidableEq, Repr

/-- A raw table row: the list of its `<td>` cells (`row.find_all("td")`);
header rows containing only `<th>` cells yield `[]`. -/
abbrev RawRow := List Cell

/-- A cell value of a pandas DataFrame: the extracted tables mix string
and float columns. -/
inductive Val where
  | str (s : String)
  | num (q : ℚ)
deriving DecidableEq, Repr

/-- A pandas DataFrame: an ordered column schema and rows of cells
(each row positionally aligned with `cols`). -/
structure DataFrame where
  cols : List String
  rows : List (List Val)
deriving DecidableEq, Repr

/-- One validated bank row: `{"Bank Name": …, "Market Cap (USD)": …}`. -/
structure BankRecord where
  name : String
  cap : ℚ
deriving DecidableEq, Repr

/-- One validated GDP row: `{"Country": …, "GDP_USD_millions": …}`; the
numeric field is still raw text at extraction time. -/
structure GdpRecord where
  country : String
  gdp : String
deriving DecidableEq, Repr

/-! ## Extraction, bank variant (`ETL_BankData.extract_data`) -/

/-- One iteration of the row loop of `extract_data`:
```
cols = row.find_all("td")
if cols:
    bank_name = cols[1].text.strip()
    market_cap_usd = float(cols[2].text.strip().replace(",", ""))
    banks.append(...)
```
`.ok none` models a skipped row, `.error` a raised exception
(IndexError / ValueError) that aborts the whole extraction. -/
def bankRow (cols : RawRow) : Except String (Option BankRecord) :=
  if cols = [] then .ok none
  else
    match cols[1]? with
    | none => .error "IndexError: list index out of range"
    | some c1 =>
      match cols[2]? with
      | none => .error "IndexError: list index out of range"
      | some c2 =>
        match parseFloat (removeCommas (strip c2.text)) with
        | none => .error "ValueError: could not convert string to float"
        | some v => .ok (some { name := strip c1.text, cap := v })

/-- The row loop of `extract_data`, accumulating the `banks` list. -/
def bankRows : List RawRow → Except String (List BankRecord)
  | [] => .ok []
  | r :: rest =>
    match bankRow r with
    | .error e => .error e
    | .ok none => bankRows rest
    | .ok (some b) => (bankRows rest).map (fun l => b :: l)

/-- `pd.DataFrame(banks)`: column order is the dict key order
`["Bank Name", "Market Cap (USD)"]`; an empty record list yields an empty
frame with no columns (as `pd.DataFrame([])` does). -/
def bankDf (recs : List BankRecord) : DataFrame :=
  if recs = [] then { cols := [], rows := [] }
  else
    { cols := ["Bank Name", "Market Cap (USD)"]
      rows := recs.map (fun r => [Val.str r.name, Val.num r.cap]) }

/-- `extract_data`, given the parsed document as the list of all `tbody`
elements (each a list of `tr` rows): `table[0].find_all("tr")`, then the
row loop, then `pd.DataFrame(banks)`. -/
def extract_data (tables : List (List RawRow)) : Except String DataFrame :=
  match tables[0]? with
  | none => .error "IndexError: list index out of range"
  | some rows => (bankRows rows).map bankDf

/-! ## Extraction, GDP variant (`ETL_GDP.extract`) -/

/-- One iteration of the row loop of `extract`:
```
col = row.find_all('td')
if len(col) != 0:
    if col[0].find('a') is not None and '—' not in col[2].text.strip():
        data_dict = {"Country": col[0].a.contents[0],
                     "GDP_USD_millions": col[2].text.strip()}
```
Note the short-circuit: `col[2]` is only touched when `col[0]` has a link,
and `col[0].a.contents[0]` raises when the link has no contents. -/
def gdpRow (col : RawRow) : Except String (Option GdpRecord) :=
  match col with
  | [] => .ok none
  | c0 :: _ =>
    match c0.aContents with
    | none => .ok none
    | some conts =>
      match col[2]? with
      | none => .error "IndexError: list index out of range"
      | some c2 =>
        if hasEmDash (strip c2.text) then .ok none
        else
          match conts.head? with
          | none => .error "IndexError: list index out of range"
          | some country => .ok (some { country := country, gdp := strip c2.text })

/-- The row loop of `extract`, accumulating the concatenated frame's rows. -/
def gdpRows : List RawRow → Except String (List GdpRecord)
  | [] => .ok []
  | r :: rest =>
    match gdpRow r with
    | .error e => .error e
    | .ok none => gdpRows rest
    | .ok (some g) => (gdpRows rest).map (fun l => g :: l)

/-- The GDP frame: `extract` starts from
`pd.DataFrame(columns=table_attribs)` and concatenates one single-row frame
per record, so the schema is present even when no row qualifies. -/
def gdpDf (recs : List GdpRecord) : DataFrame :=
  { cols := ["Country", "GDP_USD_millions"]
    rows := recs.map (fun r => [Val.str r.country, Val.str r.gdp]) }

/-- `extract`, given the parsed document as the list of all `tbody`
elements: `tables[2].find_all('tr')`, then the row loop. -/
def extract (tables : List (List RawRow)) : Except String DataFrame :=
  match tables[2]? with
  | none => .error "IndexError: list index out of range"
  | some rows => (gdpRows rows).map gdpDf

/-! ## DataFrame operations (the pandas column operations the scripts use) -/

/-- Index of a column in the schema. -/
def colIdx (df : DataFrame) (name : String) : Option Nat :=
  df.cols.findIdx? (fun c => c = name)

/-- `df[name] = values`: overwrite an existing column in place, or append
a new column at the end of the schema (pandas column-assignment order). -/
def setCol (df : DataFrame) (name : String) (vals : List Val) : DataFrame :=
  match colIdx df name with
  | some i => { cols := df.cols, rows := (df.rows.zip vals).map (fun p => p.1.set i p.2) }
  | none => { cols := df.cols ++ [name], rows := (df.rows.zip vals).map (fun p => p.1 ++ [p.2]) }

/-- `df[name]` read as a float column: a missing column raises `KeyError`
and a non-numeric cell makes the arithmetic the scripts do on it raise. -/
def getNumCol (df : DataFrame) (name : String) : Except String (List ℚ) :=
  match colIdx df name with
  | none => .error "KeyError"
  | some i =>
    df.rows.mapM (fun r =>
      match r[i]? with
      | some (Val.num q) => Except.ok q
      | _ => Except.error "TypeError")

/-- `df[name]` read as a string column. -/
def getStrCol (df : DataFrame) (name : String) : Except String (List String) :=
  match colIdx df name with
  | none => .error "KeyError"
  | some i =>
    df.rows.mapM (fun r =>
      match r[i]? with
      | some (Val.str s) => Except.ok s
      | _ => Except.error "TypeError")

/-- `df.drop(columns=[name])`. -/
def dropCol (df : DataFrame) (name : String) : DataFrame :=
  match colIdx df name with
  | none => df
  | some i => { cols := df.cols.eraseIdx i, rows := df.rows.map (fun r => r.eraseIdx i) }

/-- `df.rename(columns={old: nw})`: renaming preserves column position. -/
def renameCol (df : DataFrame) (old nw : String) : DataFrame :=
  { cols := df.cols.map (fun c => if c = old then nw else c), rows := df.rows }

/-! ## Transformation, bank variant (`ETL_BankData.transform_data`) -/

/-- The derived-column name for a currency code:
the f-string `f"Market Cap ({currency})"`. -/
def mcCol (c : String) : String := "Market Cap (" ++ c ++ ")"

/-- The warning `transform_data` logs for a missing rate:
`f"No conversion rate found for {currency}. Skipping."`. -/
def missWarn (c : String) : String :=
  "No conversion rate found for " ++ c ++ ". Skipping."

/-- The fixed request order of lines 50: `currencies = ["GBP", "EUR", "INR"]`. -/
def currencies : List String := ["GBP", "EUR", "INR"]

/-- `conversion_rates.loc[conversion_rates["Currency"] == currency, "Rate"]`
followed by the `.empty` test and `.values[0]`: the first matching rate,
if any. The conversion file is modelled as its parsed (code, rate) rows. -/
def lookupRate (conv : List (String × ℚ)) (c : String) : Option ℚ :=
  ((conv.filter (fun p => p.1 = c)).head?).map (fun p => p.2)

/-- The `for currency in currencies` loop of `transform_data`: each found
rate appends a derived column `Market Cap (<c>)` computed from the (still
unrescaled) `Market Cap (USD)` column; a missing rate appends a warning. -/
def addCurrencyCols (conv : List (String × ℚ)) :
    List String → DataFrame × List String → Except String (DataFrame × List String)
  | [], st => .ok st
  | c :: cs, (df, warns) =>
    match lookupRate conv c with
    | some rate => do
      let usd ← getNumCol df "Market Cap (USD)"
      addCurrencyCols conv cs
        (setCol df (mcCol c)
          (usd.map (fun v => Val.num (round2 (v * rate)))), warns)
    | none =>
      addCurrencyCols conv cs (df, warns ++ [missWarn c])

/-- `transform_data`: derived currency columns first (from the original
magnitudes), then `df["Market Cap (USD)"] = (df["Market Cap (USD)"] / 1e3).round(2)`,
then the rename to `MC_USD_Billion`. Returns the frame and the warnings
logged for missing rates. -/
def transform_data (df : DataFrame) (conv : List (String × ℚ)) :
    Except String (DataFrame × List String) := do
  let st ← addCurrencyCols conv currencies (df, [])
  let usd ← getNumCol st.1 "Market Cap (USD)"
  let df2 := setCol st.1 "Market Cap (USD)" (usd.map (fun v => Val.num (round2 (v / 1000))))
  .ok (renameCol df2 "Market Cap (USD)" "MC_USD_Billion", st.2)

/-! ## Transformation, GDP variant (`ETL_GDP.transform`) -/

/-- `transform`: parse the `GDP_USD_millions` strings (commas removed) as
floats, divide by 1000 into a new `GDP_USD_billions` column, drop the
original column, then round the new column to 2 places. -/
def transform (df : DataFrame) : Except String DataFrame := do
  let texts ← getStrCol df "GDP_USD_millions"
  let vals ← texts.mapM (fun s =>
    match parseFloat (removeCommas s) with
    | none => Except.error "ValueError: could not convert string to float"
    | some v => Except.ok (v / 1000))
  let df1 := setCol df "GDP_USD_billions" (vals.map Val.num)
  let df2 := dropCol df1 "GDP_USD_millions"
  let b ← getNumCol df2 "GDP_USD_billions"
  .ok (setCol df2 "GDP_USD_billions" (b.map (fun v => Val.num (round2 v))))

/-! ## CSV persistence (`load_to_csv` / reading the file back)

`df.to_csv(path, index=False)` writes a comma-delimited text file: one
header line of column names, one line per row, no index column. Fields
containing the delimiter, the quote character or a line break are quoted
and internal quote characters are doubled (the `csv.QUOTE_MINIMAL` /
`doublequote` defaults pandas uses). The file is modelled as its
character content; numeric cells are rendered in decimal with two places
(parse-equivalent to the shortest float repr the library writes for
these already-rounded values). -/

/-- Join chunks with a separator character (comma within a record,
newline between records). -/
def joinChar (c : Char) : List (List Char) → List Char
  | [] => []
  | [x] => x
  | x :: xs => x ++ c :: joinChar c xs

/-- `csv.QUOTE_MINIMAL`: a field is quoted iff it contains the
delimiter, the quote character or a line-break character. -/
def needsQuote (l : List Char) : Bool :=
  l.any (fun c => c == ',' || c == '"' || c == '\n' || c == '\r')

/-- Quote doubling inside a quoted field (`doublequote=True`). -/
def escapeQuotes : List Char → List Char
  | [] => []
  | c :: rest =>
    if c = '"' then '"' :: '"' :: escapeQuotes rest
    else c :: escapeQuotes rest

/-- Write one field, quoting it when `QUOTE_MINIMAL` requires it. -/
def quoteField (l : List Char) : List Char :=
  if needsQuote l then '"' :: (escapeQuotes l ++ ['"']) else l

/-- The reader's inverse of quote doubling: a doubled quote collapses to
one quote, everything else is kept verbatim. -/
def collapseQuotes : List Char → List Char
  | [] => []
  | [c] => [c]
  | c :: d :: rest =>
    if c = '"' ∧ d = '"' then '"' :: collapseQuotes rest
    else c :: collapseQuotes (d :: rest)

/-- Undo the writer's quoting: a field starting with the quote character
loses its surrounding quotes and has doubled quotes collapsed; any other
field is taken verbatim. -/
def unquoteField (l : List Char) : List Char :=
  match l with
  | [] => []
  | c :: rest => if c = '"' then collapseQuotes rest.dropLast else c :: rest

/-- Quote-aware split: a separator splits only at quoting depth zero
(the quote character toggles the state, which also handles doubled
quotes); any other character is prepended to the first chunk of the
remainder. The result is never empty, so `headI`/`tail` are exact. -/
def splitSepQ (sep : Char) : Bool → List Char → List (List Char)
  | _, [] => [[]]
  | inQ, c :: rest =>
    if c = '"' then
      (c :: (splitSepQ sep (!inQ) rest).headI) :: (splitSepQ sep (!inQ) rest).tail
    else if c = sep ∧ inQ = false then
      [] :: splitSepQ sep inQ rest
    else
      (c :: (splitSepQ sep inQ rest).headI) :: (splitSepQ sep inQ rest).tail

/-- Scan predicate for the split proofs: no separator occurs at quoting
depth zero. -/
def scanOk (sep : Char) : Bool → List Char → Bool
  | _, [] => true
  | st, c :: rest =>
    if c = '"' then scanOk sep (!st) rest
    else if c = sep ∧ st = false then false
    else scanOk sep st rest

/-- The quoting state after scanning a chunk. -/
def quoteState : Bool → List Char → Bool
  | st, [] => st
  | st, c :: rest => quoteState (if c = '"' then !st else st) rest

/-- Decimal rendering, two places, of a non-negative multiple of 1/100
(with scaled numerator `(q * 100).num.toNat`). -/
def fmtNN (q : ℚ) : List Char :=
  natStrChars ((q * 100).num.toNat / 100) ++
    '.' :: digitChar ((q * 100).num.toNat % 100 / 10) ::
      [digitChar ((q * 100).num.toNat % 100 % 10)]

/-- Decimal rendering of a (possibly negative) multiple of 1/100. -/
def fmtNum (q : ℚ) : List Char :=
  if q < 0 then '-' :: fmtNN (-q) else fmtNN q

/-- One CSV cell's text: identifiers verbatim, numbers in decimal. -/
def csvCell : Val → String
  | .str s => s
  | .num q => String.mk (fmtNum q)

/-- One written CSV field: the cell's text, quoted as needed. -/
def csvField (v : Val) : List Char := quoteField (csvCell v).toList

/-- The written fields of one record, given its cells' texts. -/
def recordOf (cells : List String) : List (List Char) :=
  cells.map (fun s => quoteField s.toList)

/-- The written line of one record: its fields joined by commas. -/
def lineOf (cells : List String) : List Char :=
  joinChar ',' (recordOf cells)

/-- `load_to_csv`: serialize the frame (header first, `index=False`),
fields quoted per `QUOTE_MINIMAL`, every record terminated by a line
terminator (pandas writes a trailing newline after the last record). -/
def load_to_csv (df : DataFrame) : String :=
  String.mk (joinChar '\n'
    (((df.cols.map (fun s => quoteField s.toList)) ::
        df.rows.map (fun r => r.map csvField)).map (joinChar ',')) ++ ['\n'])

/-- pandas `read_csv` infers types per column: a column is numeric iff
every one of its cells parses as a float. -/
def numericCol (strRows : List (List String)) (j : Nat) : Bool :=
  strRows.all (fun r =>
    match r[j]? with
    | some s => (parseFloat s).isSome
    | none => true)

/-- One read-back cell: in a numeric column the parsed float, otherwise
the verbatim text. -/
def inferCell (isNum : Bool) (s : String) : Val :=
  if isNum then
    match parseFloat s with
    | some q => Val.num q
    | none => Val.str s
  else Val.str s

/-- Read one record back, cell by cell, using the per-column typing. -/
def inferRow (numCols : Nat → Bool) : Nat → List String → List Val
  | _, [] => []
  | j, s :: rest => inferCell (numCols j) s :: inferRow numCols (j + 1) rest

/-- Reading the written file back: split into records on unquoted
newlines, drop blank records (`skip_blank_lines=True`, which also
absorbs the trailing line terminator), split each record on unquoted
commas, unquote every field; the first record is the header, and cell
types are inferred per column from the data records. -/
def read_csv (file : String) : Option DataFrame :=
  match ((splitSepQ '\n' false file.toList).filter (fun l => !l.isEmpty)).map
      (fun line => (splitSepQ ',' false line).map (fun f => String.mk (unquoteField f))) with
  | [] => none
  | header :: strRows =>
    some { cols := header
           rows := strRows.map (fun r => inferRow (numericCol strRows) 0 r) }

/-! ## Relational store (`load_to_db`) -/

/-- The relational store: a map from table name to table contents. -/
abbrev Store := String → Option DataFrame

/-- `df.to_sql(table_name, conn, if_exists="replace", index=False)`: the
named table is dropped and recreated with exactly the frame's rows, never
appended to. -/
def load_to_db (df : DataFrame) (store : Store) (table_name : String) : Store :=
  fun n => if n = table_name then some df else store n

/-! ## Progress log -/

/-- A wall-clock timestamp as the `datetime`/`logging` formatters see it. -/
structure DateTime where
  year : Nat
  month : Nat
  day : Nat
  hour : Nat
  minute : Nat
  second : Nat
deriving DecidableEq, Repr

/-- Two-digit zero-padded rendering (`%d`, `%H`, `%M`, `%S`). -/
def pad2 (n : Nat) : String := String.mk [digitChar (n / 10 % 10), digitChar (n % 10)]

/-- Decimal rendering of a natural number as a string (`%Y`). -/
def natStr (n : Nat) : String := String.mk (natStrChars n)

/-- Abbreviated month name (`%h`). -/
def monthAbbrev : Nat → String
  | 1 => "Jan" | 2 => "Feb" | 3 => "Mar" | 4 => "Apr" | 5 => "May" | 6 => "Jun"
  | 7 => "Jul" | 8 => "Aug" | 9 => "Sep" | 10 => "Oct" | 11 => "Nov" | 12 => "Dec"
  | _ => ""

/-- `now.strftime('%Y-%h-%d-%H:%M:%S')` of the GDP variant's `log_progress`. -/
def gdpTimestamp (t : DateTime) : String :=
  natStr t.year ++ "-" ++ monthAbbrev t.month ++ "-" ++ pad2 t.day ++ "-" ++
    pad2 t.hour ++ ":" ++ pad2 t.minute ++ ":" ++ pad2 t.second

/-- GDP `log_progress`: open the log file in append mode and write
`timestamp + ' : ' + message + '\n'`; the log file is modelled as its
list of lines. -/
def log_progress (t : DateTime) (message : String) (file : List String) : List String :=
  file ++ [gdpTimestamp t ++ " : " ++ message]

/-- `asctime` under the bank variant's `datefmt="%Y-%m-%d %H:%M:%S"`. -/
def bankTimestamp (t : DateTime) : String :=
  natStr t.year ++ "-" ++ pad2 t.month ++ "-" ++ pad2 t.day ++ " " ++
    pad2 t.hour ++ ":" ++ pad2 t.minute ++ ":" ++ pad2 t.second

/-- One line of the bank variant's log, per
`format="%(asctime)s - %(levelname)s - %(message)s"`. -/
def bankLogLine (t : DateTime) (levelname message : String) : String :=
  bankTimestamp t ++ " - " ++ levelname ++ " - " ++ message

/-- A bank-variant log event: `logging` appends one formatted line
(`FileHandler` default mode is append). -/
def bankLogWrite (t : DateTime) (levelname message : String) (file : List String) :
    List String :=
  file ++ [bankLogLine t levelname message]

/-! ## Top-level run wrappers (`main` of each script)

The fetch+parse of the page and the read of the conversion file are the
external inputs; each is an `Except` (a network or file error raises
inside the corresponding stage's `try`, is logged and re-raised). -/

/-- The outcome of one run: the exception `main` let escape to its caller
(if any) and the messages it logged at critical severity. -/
structure RunOutcome where
  raised : Option String
  criticalLog : List String
deriving Repr

/-- The body of the bank `main`'s `try`: extract, transform, load to CSV
and to the store (the query stage reads the store it just wrote). -/
def bankRun (doc : Except String (List (List RawRow)))
    (conv : Except String (List (String × ℚ))) (store0 : Store) :
    Except String (String × Store) := do
  let tables ← doc
  let df ← extract_data tables
  let cv ← conv
  let st ← transform_data df cv
  .ok (load_to_csv st.1, load_to_db st.1 store0 "Largest_banks")

/-- Bank `main`: the whole body runs inside
`try: ... except Exception as e: logging.critical(...)` — no exception
ever escapes; a failure is logged at critical severity instead. -/
def bankMain (doc : Except String (List (List RawRow)))
    (conv : Except String (List (String × ℚ))) (store0 : Store) : RunOutcome :=
  match bankRun doc conv store0 with
  | .ok _ => { raised := none, criticalLog := [] }
  | .error e => { raised := none, criticalLog := ["ETL process failed: " ++ e] }

/-- The body of the GDP `main`: extract, transform, load to CSV and to
the store. -/
def gdpRun (doc : Except String (List (List RawRow))) (store0 : Store) :
    Except String (String × Store) := do
  let tables ← doc
  let df ← extract tables
  let df2 ← transform df
  .ok (load_to_csv df2, load_to_db df2 store0 "Countries_by_GDP")

/-- GDP `main`: it has no `try`/`except` of its own, so a stage failure
propagates to the caller. -/
def gdpMain (doc : Except String (List (List RawRow))) (store0 : Store) : RunOutcome :=
  match gdpRun doc store0 with
  | .ok _ => { raised := none, criticalLog := [] }
  | .error e => { raised := some e, criticalLog := [] }

/-- Extract-then-transform composition of the bank variant (the part of
the pipeline the concrete-scenario claims inspect). -/
def bankETL (tables : List (List RawRow)) (conv : List (String × ℚ)) :
    Except String (DataFrame × List String) := do
  let df ← extract_data tables
  transform_data df conv

/-! ## Shapes used by the transformation proofs -/

/-- The requested currencies whose rate the conversion table has, with
their rates, in request order. -/
def presentRates (conv : List (String × ℚ)) : List (String × ℚ) :=
  currencies.filterMap (fun c => (lookupRate conv c).map (fun r => (c, r)))

/-- The warnings of one `transform_data` run, in request order. -/
def missingWarns (conv : List (String × ℚ)) : List String :=
  (currencies.filter (fun c => (lookupRate conv c).isNone)).map missWarn

/-- The bank frame part-way through the currency loop: the two extracted
columns followed by one derived column per processed rate. -/
def bankDfExt (recs : List BankRecord) (ps : List (String × ℚ)) : DataFrame :=
  { cols := ["Bank Name", "Market Cap (USD)"] ++ ps.map (fun p => mcCol p.1)
    rows := recs.map (fun b =>
      [Val.str b.name, Val.num b.cap] ++
        ps.map (fun p => Val.num (round2 (b.cap * p.2)))) }

/-- The bank frame after `transform_data`: the USD column rescaled to
billions and renamed, derived columns appended after the originals. -/
def bankFinalDf (recs : List BankRecord) (ps : List (String × ℚ)) : DataFrame :=
  { cols := ["Bank Name", "MC_USD_Billion"] ++ ps.map (fun p => mcCol p.1)
    rows := recs.map (fun b =>
      [Val.str b.name, Val.num (round2 (b.cap / 1000))] ++
        ps.map (fun p => Val.num (round2 (b.cap * p.2)))) }

/-! ## Concrete data of the spec's 3-row scenario -/

/-- A plain cell with no link. -/
def cellP (t : String) : Cell := { text := t, aContents := none }

/-- The raw 3-row table of the spec's concrete scenario, with the usual
leading rank cell: Bank B's numeric cell holds the em-dash sentinel. -/
def threeRowTable : List RawRow :=
  [[cellP "1", cellP "Bank A", cellP "1,000.00"],
   [cellP "2", cellP "Bank B", cellP "—"],
   [cellP "3", cellP "Bank C", cellP "500.50"]]

/-- The same table without the sentinel row. -/
def twoRowTable : List RawRow :=
  [[cellP "1", cellP "Bank A", cellP "1,000.00"],
   [cellP "3", cellP "Bank C", cellP "500.50"]]

/-- A conversion table carrying only GBP = 0.79. -/
def convGBP : List (String × ℚ) := [("GBP", 79 / 100)]

/-- A small transformed frame used to exercise the CSV round-trip; the
identifier carries a comma, so its written field is quoted. -/
def c7df : DataFrame :=
  { cols := ["Bank Name", "MC_USD_Billion"]
    rows := [[Val.str "Bank A, Inc", Val.num 1]] }

/-! # Theorems

## Rounding -/

theorem rhe_int (n : ℤ) : rhe (n : ℚ) = n := by
  unfold rhe
  rw [Rat.num_intCast, Rat.den_intCast]
  simp only [Int.fdiv_one, sub_self]
  norm_num

theorem round2_of_int_div (n : ℤ) : round2 ((n : ℚ) / 100) = (n : ℚ) / 100 := by
  unfold round2
  rw [div_mul_cancel₀ _ (by norm_num : (100 : ℚ) ≠ 0), rhe_int]

theorem round2_fix_exists {q : ℚ} (h : round2 q = q) : ∃ n : ℤ, q = (n : ℚ) / 100 :=
  ⟨rhe (q * 100), by rw [round2] at h; exact h.symm⟩

/-! ## Extraction soundness -/

theorem bankRow_ok_some {r : RawRow} {b : BankRecord}
    (h : bankRow r = .ok (some b)) :
    r ≠ [] ∧ ∃ c1 c2, r[1]? = some c1 ∧ r[2]? = some c2 ∧
      b.name = strip c1.text ∧ parseFloat (removeCommas (strip c2.text)) = some b.cap := by
  unfold bankRow at h
  split at h
  · exact absurd h (by simp)
  next hne =>
    refine ⟨hne, ?_⟩
    split at h
    · exact absurd h (by simp)
    next c1 h1 =>
      split at h
      · exact absurd h (by simp)
      next c2 h2 =>
        split at h
        · exact absurd h (by simp)
        next v hv =>
          simp only [Except.ok.injEq, Option.some.injEq] at h
          exact ⟨c1, c2, h1, h2, by rw [← h], by rw [← h]; exact hv⟩

theorem bankRow_ok_ne_nil {r : RawRow} {o : Option BankRecord}
    (h : bankRow r = .ok o) (hne : r ≠ []) :
    ∃ c1 c2 v, r[1]? = some c1 ∧ r[2]? = some c2 ∧
      parseFloat (removeCommas (strip c2.text)) = some v := by
  unfold bankRow at h
  rw [if_neg hne] at h
  split at h
  · exact absurd h (by simp)
  next c1 h1 =>
    split at h
    · exact absurd h (by simp)
    next c2 h2 =>
      split at h
      · exact absurd h (by simp)
      next v hv => exact ⟨c1, c2, v, h1, h2, hv⟩

theorem bankRows_sound {rows : List RawRow} {recs : List BankRecord}
    (h : bankRows rows = .ok recs) :
    ∀ b ∈ recs, ∃ r ∈ rows, bankRow r = .ok (some b) := by
  induction rows generalizing recs with
  | nil =>
    intro b hb
    unfold bankRows at h
    simp only [Except.ok.injEq] at h
    subst h
    simp at hb
  | cons r rest ih =>
    intro b hb
    unfold bankRows at h
    split at h
    · exact absurd h (by simp)
    next heq =>
      rcases ih h b hb with ⟨r', hr', hb'⟩
      exact ⟨r', List.mem_cons_of_mem _ hr', hb'⟩
    next bk heq =>
      cases hrest : bankRows rest with
      | error e => rw [hrest] at h; exact absurd h (by simp [Except.map])
      | ok recs' =>
        rw [hrest] at h
        simp only [Except.map, Except.ok.injEq] at h
        subst h
        rcases List.mem_cons.1 hb with rfl | hb'
        · exact ⟨r, List.mem_cons_self .., heq⟩
        · rcases ih hrest b hb' with ⟨r', hr', hok⟩
          exact ⟨r', List.mem_cons_of_mem _ hr', hok⟩

theorem bankRows_ok_all {rows : List RawRow} {recs : List BankRecord}
    (h : bankRows rows = .ok recs) :
    ∀ r ∈ rows, ∃ o, bankRow r = .ok o := by
  induction rows generalizing recs with
  | nil => intro r hr; simp at hr
  | cons r0 rest ih =>
    intro r hr
    unfold bankRows at h
    split at h
    · exact absurd h (by simp)
    next heq =>
      rcases List.mem_cons.1 hr with rfl | hr'
      · exact ⟨none, heq⟩
      · exact ih h r hr'
    next bk heq =>
      cases hrest : bankRows rest with
      | error e => rw [hrest] at h; exact absurd h (by simp [Except.map])
      | ok recs' =>
        rcases List.mem_cons.1 hr with rfl | hr'
        · exact ⟨some bk, heq⟩
        · exact ih hrest r hr'

theorem gdpRow_ok_some {r : RawRow} {g : GdpRecord}
    (h : gdpRow r = .ok (some g)) :
    ∃ c0 conts c2, r[0]? = some c0 ∧ c0.aContents = some conts ∧
      r[2]? = some c2 ∧ hasEmDash (strip c2.text) = false ∧
      conts.head? = some g.country ∧ g.gdp = strip c2.text := by
  unfold gdpRow at h
  split at h
  · exact absurd h (by simp)
  next c0 rest =>
    split at h
    · exact absurd h (by simp)
    next conts hconts =>
      split at h
      · exact absurd h (by simp)
      next c2 h2 =>
        split at h
        · exact absurd h (by simp)
        next hdash =>
          split at h
          · exact absurd h (by simp)
          next country hcountry =>
            simp only [Except.ok.injEq, Option.some.injEq] at h
            refine ⟨c0, conts, c2, by simp, hconts, h2, ?_, ?_, ?_⟩
            · exact Bool.of_not_eq_true hdash
            · rw [← h]; exact hcountry
            · rw [← h]

theorem gdpRows_sound {rows : List RawRow} {recs : List GdpRecord}
    (h : gdpRows rows = .ok recs) :
    ∀ g ∈ recs, ∃ r ∈ rows, gdpRow r = .ok (some g) := by
  induction rows generalizing recs with
  | nil =>
    intro g hg
    unfold gdpRows at h
    simp only [Except.ok.injEq] at h
    subst h
    simp at hg
  | cons r rest ih =>
    intro g hg
    unfold gdpRows at h
    split at h
    · exact absurd h (by simp)
    next heq =>
      rcases ih h g hg with ⟨r', hr', hg'⟩
      exact ⟨r', List.mem_cons_of_mem _ hr', hg'⟩
    next gk heq =>
      cases hrest : gdpRows rest with
      | error e => rw [hrest] at h; exact absurd h (by simp [Except.map])
      | ok recs' =>
        rw [hrest] at h
        simp only [Except.map, Except.ok.injEq] at h
        subst h
        rcases List.mem_cons.1 hg with rfl | hg'
        · exact ⟨r, List.mem_cons_self .., heq⟩
        · rcases ih hrest g hg' with ⟨r', hr', hok⟩
          exact ⟨r', List.mem_cons_of_mem _ hr', hok⟩

/-! ## The em-dash sentinel defeats the float parser -/

theorem parseUnsigned_of_emDash {l : List Char} (h : '—' ∈ l) :
    parseUnsigned l = none := by
  have hnotip : '—' ∉ l.takeWhile (fun c => c.isDigit) := fun hmem =>
    absurd (List.mem_takeWhile_imp hmem) (by decide)
  have hdrop : '—' ∈ l.dropWhile (fun c => c.isDigit) := by
    have h' := h
    rw [← List.takeWhile_append_dropWhile (fun c => c.isDigit) l] at h'
    rcases List.mem_append.1 h' with h'' | h''
    · exact absurd h'' hnotip
    · exact h''
  unfold parseUnsigned parseUnsignedAux
  split
  next heq => rw [heq] at hdrop; simp at hdrop
  next c fp heq =>
    rw [heq] at hdrop
    by_cases hc : c = '.'
    · subst hc
      have hfp : '—' ∈ fp := by
        rcases List.mem_cons.1 hdrop with h'' | h''
        · exact absurd h''.symm (by decide)
        · exact h''
      have : fp.all (fun d => d.isDigit) = false := by
        rw [List.all_eq_false]
        exact ⟨'—', hfp, by decide⟩
      simp [this]
    · simp [hc]

theorem parseFloatChars_of_emDash {l : List Char} (h : '—' ∈ l) :
    parseFloatChars l = none := by
  unfold parseFloatChars
  cases l with
  | nil => rfl
  | cons c rest =>
    by_cases hc : c = '-'
    · subst hc
      have hrest : '—' ∈ rest := by
        rcases List.mem_cons.1 h with h'' | h''
        · exact absurd h'' (by decide)
        · exact h''
      simp [parseUnsigned_of_emDash hrest]
    · by_cases hc' : c = '+'
      · subst hc'
        have hrest : '—' ∈ rest := by
          rcases List.mem_cons.1 h with h'' | h''
          · exact absurd h'' (by decide)
          · exact h''
        simp [hc, parseUnsigned_of_emDash hrest]
      · simp [hc, hc', parseUnsigned_of_emDash h]

theorem parseFloat_of_emDash {s : String} (h : hasEmDash s = true) :
    parseFloat s = none := by
  apply parseFloatChars_of_emDash
  simpa [hasEmDash] using h

theorem hasEmDash_removeCommas {s : String} (h : hasEmDash s = true) :
    hasEmDash (removeCommas s) = true := by
  simp only [hasEmDash, List.any_eq_true, beq_iff_eq] at h ⊢
  rcases h with ⟨c, hc, rfl⟩
  exact ⟨'—', List.mem_filter.2 ⟨hc, by decide⟩, rfl⟩

/-! ## Transformation lemmas -/

theorem string_data_inj {a b : String} (h : a.data = b.data) : a = b := by
  cases a; cases b; exact congrArg String.mk h

theorem mcCol_inj : Function.Injective mcCol := by
  intro a b h
  have hd := congrArg String.data h
  simp only [mcCol, String.data_append] at hd
  exact string_data_inj (List.append_cancel_left (List.append_cancel_right hd))

theorem mapM_getNum {α : Type} (i : Nat) (f : α → List Val) (g : α → ℚ) (l : List α)
    (hval : ∀ a, (f a)[i]? = some (Val.num (g a))) :
    (l.map f).mapM (fun r =>
      match r[i]? with
      | some (Val.num q) => Except.ok q
      | _ => Except.error "TypeError") = (Except.ok (l.map g) : Except String (List ℚ)) := by
  induction l with
  | nil => rfl
  | cons a rest ih =>
    rw [List.map_cons, List.map_cons, List.mapM_cons, hval a]
    simp only [bind, Except.bind, ih, pure, Except.pure]

theorem getNumCol_map {α : Type} (cols : List String) (name : String) (i : Nat)
    (f : α → List Val) (g : α → ℚ) (l : List α)
    (hidx : List.findIdx? (fun c => c = name) cols = some i)
    (hval : ∀ a, (f a)[i]? = some (Val.num (g a))) :
    getNumCol ⟨cols, l.map f⟩ name = .ok (l.map g) := by
  unfold getNumCol colIdx
  rw [show DataFrame.cols ⟨cols, l.map f⟩ = cols from rfl, hidx]
  exact mapM_getNum i f g l hval

theorem colIdx_bankDfExt_usd (recs : List BankRecord) (ps : List (String × ℚ)) :
    colIdx (bankDfExt recs ps) "Market Cap (USD)" = some 1 := by
  unfold colIdx bankDfExt
  simp [List.findIdx?_cons]

theorem getNumCol_bankDfExt (recs : List BankRecord) (ps : List (String × ℚ)) :
    getNumCol (bankDfExt recs ps) "Market Cap (USD)" = .ok (recs.map (fun b => b.cap)) := by
  apply getNumCol_map _ _ 1
  · simp [List.findIdx?_cons]
  · intro b; simp

theorem zip_map_append {α : Type} (l : List α) (f : α → List Val) (g : α → Val) :
    ((l.map f).zip (l.map g)).map (fun p => p.1 ++ [p.2]) = l.map (fun a => f a ++ [g a]) := by
  induction l with
  | nil => rfl
  | cons a rest ih => simp [ih]

theorem zip_map_set {α : Type} (l : List α) (f : α → List Val) (g : α → Val) (i : Nat) :
    ((l.map f).zip (l.map g)).map (fun p => p.1.set i p.2) =
      l.map (fun a => (f a).set i (g a)) := by
  induction l with
  | nil => rfl
  | cons a rest ih => simp [ih]

theorem setCol_bankDfExt_fresh (recs : List BankRecord) (ps : List (String × ℚ))
    (c : String) (rate : ℚ)
    (hfresh : mcCol c ∉ (bankDfExt recs ps).cols) :
    setCol (bankDfExt recs ps) (mcCol c)
      ((recs.map (fun b => b.cap)).map (fun v => Val.num (round2 (v * rate)))) =
      bankDfExt recs (ps ++ [(c, rate)]) := by
  have hidx : colIdx (bankDfExt recs ps) (mcCol c) = none := by
    unfold colIdx
    rw [List.findIdx?_eq_none_iff]
    intro x hx
    simp only [decide_eq_false_iff_not]
    exact fun hxc => hfresh (hxc ▸ hx)
  unfold setCol
  rw [hidx]
  dsimp only
  unfold bankDfExt
  congr 1
  · simp [List.append_assoc]
  · clear hidx hfresh
    induction recs with
    | nil => rfl
    | cons b rest ih => simp_all

theorem addCurrencyCols_run (conv : List (String × ℚ)) (cs : List String) :
    ∀ (recs : List BankRecord) (ps : List (String × ℚ)) (warns : List String),
    (∀ c ∈ cs, mcCol c ∉ (bankDfExt recs ps).cols) →
    cs.Nodup →
    addCurrencyCols conv cs (bankDfExt recs ps, warns) =
      .ok (bankDfExt recs
            (ps ++ cs.filterMap (fun c => (lookupRate conv c).map (fun r => (c, r)))),
           warns ++ (cs.filter (fun c => (lookupRate conv c).isNone)).map missWarn) := by
  induction cs with
  | nil => intro recs ps warns _ _; simp [addCurrencyCols]
  | cons c cs ih =>
    intro recs ps warns hfresh hnodup
    have hnodup' := List.nodup_cons.1 hnodup
    unfold addCurrencyCols
    cases hl : lookupRate conv c with
    | some rate =>
      rw [getNumCol_bankDfExt]
      simp only [bind, Except.bind]
      rw [setCol_bankDfExt_fresh recs ps c rate (hfresh c (List.mem_cons_self ..))]
      rw [ih recs (ps ++ [(c, rate)]) warns ?_ hnodup'.2]
      · simp [hl, List.filter_cons, List.filterMap_cons, List.append_assoc]
      · intro c' hc'
        intro hmem
        unfold bankDfExt at hmem
        simp only [List.map_append, ← List.append_assoc] at hmem
        rcases List.mem_append.1 hmem with hmem' | hmem'
        · exact hfresh c' (List.mem_cons_of_mem _ hc')
            (by unfold bankDfExt; simpa using hmem')
        · simp only [List.map_cons, List.map_nil, List.mem_singleton] at hmem'
          exact hnodup'.1 (mcCol_inj hmem' ▸ hc')
    | none =>
      rw [ih recs ps (warns ++ [missWarn c])
        (fun c' hc' => hfresh c' (List.mem_cons_of_mem _ hc')) hnodup'.2]
      simp [hl, List.filter_cons, List.filterMap_cons, List.append_assoc, missWarn]

theorem bankDf_eq_ext (recs : List BankRecord) (hne : recs ≠ []) :
    bankDf recs = bankDfExt recs [] := by
  unfold bankDf bankDfExt
  rw [if_neg hne]
  simp

theorem setCol_bankDfExt_usd (recs : List BankRecord) (ps : List (String × ℚ)) :
    setCol (bankDfExt recs ps) "Market Cap (USD)"
      ((recs.map (fun b => b.cap)).map (fun v => Val.num (round2 (v / 1000)))) =
      ⟨["Bank Name", "Market Cap (USD)"] ++ ps.map (fun p => mcCol p.1),
       recs.map (fun b => [Val.str b.name, Val.num (round2 (b.cap / 1000))] ++
         ps.map (fun p => Val.num (round2 (b.cap * p.2))))⟩ := by
  unfold setCol
  rw [colIdx_bankDfExt_usd]
  dsimp only
  unfold bankDfExt
  congr 1
  induction recs with
  | nil => rfl
  | cons b rest ih => simp_all

theorem renameCol_usd (ps : List (String × ℚ)) (rows : List (List Val))
    (hps : ∀ p ∈ ps, p.1 ≠ "USD") :
    renameCol ⟨["Bank Name", "Market Cap (USD)"] ++ ps.map (fun p => mcCol p.1), rows⟩
      "Market Cap (USD)" "MC_USD_Billion" =
      ⟨["Bank Name", "MC_USD_Billion"] ++ ps.map (fun p => mcCol p.1), rows⟩ := by
  have h1 : List.map (fun c => if c = "Market Cap (USD)" then "MC_USD_Billion" else c)
      ["Bank Name", "Market Cap (USD)"] = ["Bank Name", "MC_USD_Billion"] := by simp
  have h2 : List.map (fun c => if c = "Market Cap (USD)" then "MC_USD_Billion" else c)
      (ps.map (fun p => mcCol p.1)) = ps.map (fun p => mcCol p.1) := by
    rw [List.map_map]
    apply List.map_congr_left
    intro p hp
    simp only [Function.comp_apply]
    rw [if_neg (fun h => hps p hp (mcCol_inj (h.trans (by decide))))]
  unfold renameCol
  congr 1
  rw [List.map_append, h1, h2]

theorem filterMap_rates_fst (conv : List (String × ℚ)) (cs : List String) :
    (cs.filterMap (fun c => (lookupRate conv c).map (fun r => (c, r)))).map Prod.fst =
      cs.filter (fun c => (lookupRate conv c).isSome) := by
  induction cs with
  | nil => rfl
  | cons c cs ih =>
    cases hl : lookupRate conv c <;>
      simp [List.filterMap_cons, List.filter_cons, hl, ih]

theorem presentRates_fst (conv : List (String × ℚ)) :
    (presentRates conv).map Prod.fst =
      currencies.filter (fun c => (lookupRate conv c).isSome) :=
  filterMap_rates_fst conv currencies

theorem mem_presentRates {conv : List (String × ℚ)} {c : String} {r : ℚ} :
    (c, r) ∈ presentRates conv ↔ c ∈ currencies ∧ lookupRate conv c = some r := by
  unfold presentRates
  rw [List.mem_filterMap]
  constructor
  · rintro ⟨a, ha, heq⟩
    cases hl : lookupRate conv a with
    | none => rw [hl] at heq; simp at heq
    | some r' =>
      rw [hl] at heq
      simp only [Option.map_some', Option.some.injEq, Prod.mk.injEq] at heq
      rcases heq with ⟨rfl, rfl⟩
      exact ⟨ha, hl⟩
  · rintro ⟨hc, hl⟩
    exact ⟨c, hc, by rw [hl]; rfl⟩

theorem mem_presentRates_fst {conv : List (String × ℚ)} {p : String × ℚ}
    (hp : p ∈ presentRates conv) : p.1 ∈ currencies :=
  (mem_presentRates.1 (show (p.1, p.2) ∈ presentRates conv from hp)).1

theorem presentRates_nodup (conv : List (String × ℚ)) :
    ((presentRates conv).map (fun p => mcCol p.1)).Nodup := by
  have h1 : (presentRates conv).map (fun p => mcCol p.1) =
      ((presentRates conv).map Prod.fst).map mcCol := by
    rw [List.map_map]; rfl
  rw [h1, presentRates_fst]
  exact List.Nodup.map mcCol_inj (List.Nodup.filter _ (by decide))

theorem mem_currencies_ne_usd {c : String} (hc : c ∈ currencies) : c ≠ "USD" := by
  fin_cases hc <;> decide

theorem mcCol_fresh_base {c : String} (hc : c ∈ currencies) (recs : List BankRecord) :
    mcCol c ∉ (bankDfExt recs []).cols := by
  fin_cases hc <;> simp [bankDfExt, mcCol]

theorem transform_data_run (recs : List BankRecord) (conv : List (String × ℚ))
    (hne : recs ≠ []) :
    transform_data (bankDf recs) conv =
      .ok (bankFinalDf recs (presentRates conv), missingWarns conv) := by
  unfold transform_data
  rw [bankDf_eq_ext recs hne]
  rw [addCurrencyCols_run conv currencies recs [] []
    (fun c hc => mcCol_fresh_base hc recs) (by decide)]
  rw [show (currencies.filterMap
      (fun c => (lookupRate conv c).map (fun r => (c, r)))) = presentRates conv from rfl]
  rw [show ((currencies.filter (fun c => (lookupRate conv c).isNone)).map missWarn) =
      missingWarns conv from rfl]
  simp only [bind, Except.bind, List.nil_append]
  rw [getNumCol_bankDfExt]
  dsimp only
  rw [setCol_bankDfExt_usd,
    renameCol_usd _ _ (fun p hp => mem_currencies_ne_usd (mem_presentRates_fst hp))]
  rfl

theorem getNumCol_extended (c : String) (r : ℚ) :
    ∀ (ps : List (String × ℚ)) (pre : List String) (g0 : BankRecord → List Val)
      (recs : List BankRecord),
    (c, r) ∈ ps →
    mcCol c ∉ pre →
    (ps.map (fun p => mcCol p.1)).Nodup →
    (∀ b, (g0 b).length = pre.length) →
    getNumCol ⟨pre ++ ps.map (fun p => mcCol p.1),
               recs.map (fun b => g0 b ++ ps.map (fun p => Val.num (round2 (b.cap * p.2))))⟩
      (mcCol c) = .ok (recs.map (fun b => round2 (b.cap * r))) := by
  intro ps
  induction ps with
  | nil => intro pre g0 recs hmem; simp at hmem
  | cons p ps ih =>
    intro pre g0 recs hmem hpre hnodup hlen
    by_cases hc : mcCol c = mcCol p.1
    · have hr : r = p.2 := by
        rcases List.mem_cons.1 hmem with heq | htail
        · exact congrArg Prod.snd heq
        · exfalso
          have hin : mcCol c ∈ ps.map (fun p => mcCol p.1) :=
            List.mem_map.2 ⟨(c, r), htail, rfl⟩
          rw [hc] at hin
          exact (List.nodup_cons.1 hnodup).1 hin
      subst hr
      apply getNumCol_map _ _ pre.length
      · rw [List.findIdx?_append]
        have hpre' : List.findIdx? (fun x => x = mcCol c) pre = none :=
          List.findIdx?_eq_none_iff.2
            (fun x hx => decide_eq_false (fun hxc => hpre (hxc ▸ hx)))
        rw [hpre']
        simp only [Option.none_or, List.map_cons, List.findIdx?_cons]
        rw [if_pos (decide_eq_true hc.symm)]
        simp
      · intro b
        rw [List.getElem?_append_right (hlen b).le]
        simp [hlen b]
    · have hmem' : (c, r) ∈ ps := by
        rcases List.mem_cons.1 hmem with heq | h'
        · exact absurd (congrArg (fun x => mcCol x.1) heq) hc
        · exact h'
      have key := ih (pre ++ [mcCol p.1])
        (fun b => g0 b ++ [Val.num (round2 (b.cap * p.2))]) recs hmem'
        (by
          intro hmem''
          rcases List.mem_append.1 hmem'' with h' | h'
          · exact hpre h'
          · exact hc (List.mem_singleton.1 h'))
        (List.nodup_cons.1 hnodup).2
        (by intro b; simp [hlen b])
      simp only [List.append_assoc, List.singleton_append] at key
      simpa only [List.map_cons] using key

theorem getNumCol_final_currency {conv : List (String × ℚ)} {c : String} {r : ℚ}
    (hc : c ∈ currencies) (hl : lookupRate conv c = some r) (recs : List BankRecord) :
    getNumCol (bankFinalDf recs (presentRates conv)) (mcCol c) =
      .ok (recs.map (fun b => round2 (b.cap * r))) := by
  unfold bankFinalDf
  apply getNumCol_extended c r (presentRates conv) _ _ recs
  · exact mem_presentRates.2 ⟨hc, hl⟩
  · intro h'; fin_cases hc <;> exact absurd h' (by decide)
  · exact presentRates_nodup conv
  · intro b; rfl

theorem getNumCol_final_usd (recs : List BankRecord) (ps : List (String × ℚ)) :
    getNumCol (bankFinalDf recs ps) "MC_USD_Billion" =
      .ok (recs.map (fun b => round2 (b.cap / 1000))) := by
  unfold bankFinalDf
  apply getNumCol_map _ _ 1
  · simp [List.cons_append, List.findIdx?_cons]
  · intro b; simp

theorem mcCol_not_mem_final {conv : List (String × ℚ)} {c : String}
    (hc : c ∈ currencies) (hl : lookupRate conv c = none) (recs : List BankRecord) :
    mcCol c ∉ (bankFinalDf recs (presentRates conv)).cols := by
  intro hmem
  unfold bankFinalDf at hmem
  rcases List.mem_append.1 hmem with h' | h'
  · fin_cases hc <;> exact absurd h' (by decide)
  · rcases List.mem_map.1 h' with ⟨p, hp, hpc⟩
    have hp1 : p.1 = c := mcCol_inj hpc
    have hsome := (mem_presentRates.1 (show (p.1, p.2) ∈ presentRates conv from hp)).2
    rw [hp1, hl] at hsome
    exact Option.noConfusion hsome

theorem missWarn_mem {conv : List (String × ℚ)} {c : String}
    (hc : c ∈ currencies) (hl : lookupRate conv c = none) :
    missWarn c ∈ missingWarns conv := by
  unfold missingWarns
  exact List.mem_map_of_mem _ (List.mem_filter.2 ⟨hc, by simp [hl]⟩)

/-! ## Decimal digits: rendering and reparsing -/

theorem charVal_digitChar : ∀ d : Nat, d < 10 → charVal (digitChar d) = d := by decide

theorem isDigit_digitChar : ∀ d : Nat, d < 10 → (digitChar d).isDigit = true := by decide

theorem digitsVal_append (l : List Char) (ch : Char) :
    digitsVal (l ++ [ch]) = 10 * digitsVal l + charVal ch := by
  unfold digitsVal
  rw [List.foldl_append]
  rfl

theorem natDigitsLE_lt (f n : Nat) : ∀ d ∈ natDigitsLE f n, d < 10 := by
  induction f generalizing n with
  | zero => intro d hd; simp [natDigitsLE] at hd
  | succ f ih =>
    intro d hd
    unfold natDigitsLE at hd
    split at hd
    · simp at hd
    · rcases List.mem_cons.1 hd with rfl | hd2
      · exact Nat.mod_lt _ (by norm_num)
      · exact ih _ d hd2

theorem digitsVal_rev_digits (f : Nat) : ∀ n : Nat, n ≤ f →
    digitsVal (((natDigitsLE f n).map digitChar).reverse) = n := by
  induction f with
  | zero =>
    intro n h
    have hn0 : n = 0 := by omega
    subst hn0
    rfl
  | succ f ih =>
    intro n h
    by_cases hn : n = 0
    · subst hn; rfl
    · unfold natDigitsLE
      rw [if_neg hn, List.map_cons, List.reverse_cons, digitsVal_append]
      have h1 : n / 10 < n := Nat.div_lt_self (Nat.pos_of_ne_zero hn) (by norm_num)
      rw [ih (n / 10) (by omega)]
      rw [charVal_digitChar _ (Nat.mod_lt _ (by norm_num))]
      omega

theorem digitsVal_natStrChars (n : Nat) : digitsVal (natStrChars n) = n := by
  unfold natStrChars
  split
  · next h => rw [h]; rfl
  · exact digitsVal_rev_digits n n le_rfl

theorem natStrChars_digits (n : Nat) : ∀ c ∈ natStrChars n, c.isDigit = true := by
  unfold natStrChars
  split
  · intro c hc
    rw [List.mem_singleton.1 hc]
    decide
  · intro c hc
    rw [List.mem_reverse] at hc
    rcases List.mem_map.1 hc with ⟨d, hd, rfl⟩
    exact isDigit_digitChar d (natDigitsLE_lt n n d hd)

theorem natStrChars_ne_nil (n : Nat) : natStrChars n ≠ [] := by
  unfold natStrChars
  split
  · simp
  · next h =>
    simp only [ne_eq, List.reverse_eq_nil_iff, List.map_eq_nil_iff]
    cases n with
    | zero => exact absurd rfl h
    | succ m => simp [natDigitsLE]

/-! ## The formatter's output reparses to the same value -/

theorem takeWhile_all_append {p : Char → Bool} {l1 : List Char} (h1 : ∀ x ∈ l1, p x = true)
    {c : Char} (hc : p c = false) (l2 : List Char) :
    (l1 ++ c :: l2).takeWhile p = l1 ∧ (l1 ++ c :: l2).dropWhile p = c :: l2 := by
  induction l1 with
  | nil => simp [List.takeWhile_cons, List.dropWhile_cons, hc]
  | cons a l1 ih =>
    have ha := h1 a (List.mem_cons_self ..)
    have hih := ih (fun x hx => h1 x (List.mem_cons_of_mem _ hx))
    simp [List.takeWhile_cons, List.dropWhile_cons, ha, hih.1, hih.2]

theorem round2_fix_nonneg {q : ℚ} (h : round2 q = q) (h0 : 0 ≤ q) :
    ∃ n : ℕ, q = (n : ℚ) / 100 ∧ (q * 100).num.toNat = n := by
  rcases round2_fix_exists h with ⟨m, hm⟩
  have hm0 : 0 ≤ m := by
    have h1 : (0 : ℚ) ≤ (m : ℚ) / 100 := hm ▸ h0
    rw [le_div_iff₀ (by norm_num : (0 : ℚ) < 100)] at h1
    exact_mod_cast by simpa using h1
  refine ⟨m.toNat, ?_, ?_⟩
  · rw [hm]
    congr 1
    exact_mod_cast (Int.toNat_of_nonneg hm0).symm
  · rw [hm, div_mul_cancel₀ _ (by norm_num : (100 : ℚ) ≠ 0), Rat.num_intCast]

theorem parseUnsigned_fmtNN {q : ℚ} (h : round2 q = q) (h0 : 0 ≤ q) :
    parseUnsigned (fmtNN q) = some q := by
  rcases round2_fix_nonneg h h0 with ⟨n, hq, hn⟩
  unfold fmtNN
  rw [hn]
  unfold parseUnsigned
  have hsplit := takeWhile_all_append (natStrChars_digits (n / 100))
    (by decide : ('.' : Char).isDigit = false)
    (digitChar (n % 100 / 10) :: [digitChar (n % 100 % 10)])
  rw [hsplit.1, hsplit.2]
  unfold parseUnsignedAux
  dsimp only
  rw [if_pos rfl]
  rw [if_pos]
  · rw [digitsVal_natStrChars]
    have hd : digitsVal [digitChar (n % 100 / 10), digitChar (n % 100 % 10)] = n % 100 := by
      unfold digitsVal
      simp only [List.foldl_cons, List.foldl_nil]
      rw [charVal_digitChar _ (by omega), charVal_digitChar _ (by omega)]
      omega
    rw [hd, hq]
    congr 1
    have key : ((n / 100 : ℕ) : ℚ) * 100 + ((n % 100 : ℕ) : ℚ) = (n : ℚ) := by
      exact_mod_cast congrArg (Nat.cast : ℕ → ℚ)
        (by omega : (n / 100) * 100 + n % 100 = n)
    rw [show ((10 : ℚ) ^
        (List.length [digitChar (n % 100 / 10), digitChar (n % 100 % 10)] : ℕ)) = 100
      by norm_num]
    field_simp
    linarith [key]
  · rw [Bool.and_eq_true]
    constructor
    · simp [isDigit_digitChar _ (show n % 100 / 10 < 10 by omega),
        isDigit_digitChar _ (show n % 100 % 10 < 10 by omega)]
    · rw [Bool.or_eq_true]
      left
      simp [natStrChars_ne_nil]

theorem parseFloatChars_digit_head {c : Char} {l : List Char} (hc : c.isDigit = true) :
    parseFloatChars (c :: l) = parseUnsigned (c :: l) := by
  have h1 : ¬(c = '-') := fun heq => absurd (heq ▸ hc) (by decide)
  have h2 : ¬(c = '+') := fun heq => absurd (heq ▸ hc) (by decide)
  unfold parseFloatChars
  dsimp only
  rw [if_neg h1, if_neg h2]

theorem round2_fix_neg {q : ℚ} (h : round2 q = q) : round2 (-q) = -q := by
  rcases round2_fix_exists h with ⟨m, hm⟩
  rw [hm, ← neg_div, show -(m : ℚ) = ((-m : ℤ) : ℚ) by push_cast; ring]
  exact round2_of_int_div (-m)

theorem fmtNN_shape (q : ℚ) : ∃ c t, fmtNN q = c :: t ∧ c.isDigit = true := by
  unfold fmtNN
  obtain ⟨c, t, hct⟩ :=
    List.exists_cons_of_ne_nil (natStrChars_ne_nil ((q * 100).num.toNat / 100))
  refine ⟨c, t ++ _, by rw [hct]; rfl, ?_⟩
  exact natStrChars_digits _ c (by rw [hct]; exact List.mem_cons_self ..)

theorem parseFloat_fmtNum {q : ℚ} (h : round2 q = q) :
    parseFloat (String.mk (fmtNum q)) = some q := by
  unfold parseFloat
  rw [show (String.mk (fmtNum q)).toList = fmtNum q from rfl]
  unfold fmtNum
  split
  · next hneg =>
    rw [show parseFloatChars ('-' :: fmtNN (-q)) =
        (parseUnsigned (fmtNN (-q))).map (fun x => -x) by
      unfold parseFloatChars; dsimp only; rw [if_pos rfl]]
    rw [parseUnsigned_fmtNN (round2_fix_neg h) (by linarith)]
    simp
  · next hneg =>
    rcases fmtNN_shape q with ⟨c, t, hct, hcd⟩
    rw [hct, parseFloatChars_digit_head hcd, ← hct]
    exact parseUnsigned_fmtNN h (le_of_not_lt hneg)

theorem fmtNum_ne_nil (q : ℚ) : fmtNum q ≠ [] := by
  unfold fmtNum
  split
  · exact List.cons_ne_nil _ _
  · unfold fmtNN
    intro h
    rcases List.append_eq_nil.1 h with ⟨_, h2⟩
    exact List.noConfusion h2

/-! ## Joining and splitting with `QUOTE_MINIMAL` quoting -/

theorem mk_toList (s : String) : String.mk s.toList = s := by cases s; rfl

theorem toList_mk (l : List Char) : (String.mk l).toList = l := rfl

theorem toList_eq_nil {s : String} (h : s.toList = []) : s = "" := by
  rw [← mk_toList s, h]

theorem joinChar_cons2 (j : Char) (x y : List Char) (ys : List (List Char)) :
    joinChar j (x :: y :: ys) = x ++ j :: joinChar j (y :: ys) := rfl

theorem splitSepQ_nil (sep : Char) (st : Bool) : splitSepQ sep st [] = [[]] := rfl

theorem splitSepQ_cons (sep : Char) (st : Bool) (c : Char) (l : List Char) :
    splitSepQ sep st (c :: l) =
      if c = '"' then
        (c :: (splitSepQ sep (!st) l).headI) :: (splitSepQ sep (!st) l).tail
      else if c = sep ∧ st = false then [] :: splitSepQ sep st l
      else (c :: (splitSepQ sep st l).headI) :: (splitSepQ sep st l).tail := rfl

theorem scanOk_nil (sep : Char) (st : Bool) : scanOk sep st [] = true := rfl

theorem scanOk_cons (sep : Char) (st : Bool) (c : Char) (l : List Char) :
    scanOk sep st (c :: l) =
      if c = '"' then scanOk sep (!st) l
      else if c = sep ∧ st = false then false
      else scanOk sep st l := rfl

theorem quoteState_nil (st : Bool) : quoteState st [] = st := rfl

theorem quoteState_cons (st : Bool) (c : Char) (l : List Char) :
    quoteState st (c :: l) = quoteState (if c = '"' then !st else st) l := rfl

theorem escapeQuotes_cons (c : Char) (l : List Char) :
    escapeQuotes (c :: l) =
      if c = '"' then '"' :: '"' :: escapeQuotes l else c :: escapeQuotes l := rfl

theorem collapseQuotes_cons2 (c d : Char) (l : List Char) :
    collapseQuotes (c :: d :: l) =
      if c = '"' ∧ d = '"' then '"' :: collapseQuotes l
      else c :: collapseQuotes (d :: l) := rfl

theorem unquoteField_cons (c : Char) (l : List Char) :
    unquoteField (c :: l) =
      if c = '"' then collapseQuotes l.dropLast else c :: l := rfl

theorem inferRow_cons (numCols : Nat → Bool) (j : Nat) (s : String) (l : List String) :
    inferRow numCols j (s :: l) = inferCell (numCols j) s :: inferRow numCols (j + 1) l := rfl

theorem splitSepQ_ne_nil (sep : Char) (st : Bool) (l : List Char) :
    splitSepQ sep st l ≠ [] := by
  cases l with
  | nil => rw [splitSepQ_nil]; exact List.cons_ne_nil _ _
  | cons c rest =>
    rw [splitSepQ_cons]
    split
    · exact List.cons_ne_nil _ _
    · split
      · exact List.cons_ne_nil _ _
      · exact List.cons_ne_nil _ _

theorem cons_headI_tail {l : List (List Char)} (h : l ≠ []) : l.headI :: l.tail = l := by
  cases l with
  | nil => exact absurd rfl h
  | cons a t => rfl

theorem quoteState_append (b : List Char) : ∀ (a : List Char) (st : Bool),
    quoteState st (a ++ b) = quoteState (quoteState st a) b := by
  intro a
  induction a with
  | nil => intro st; rfl
  | cons c rest ih =>
    intro st
    rw [List.cons_append, quoteState_cons, quoteState_cons, ih]

theorem scanOk_append (b : List Char) : ∀ (sep : Char) (a : List Char) (st : Bool),
    scanOk sep st (a ++ b) = (scanOk sep st a && scanOk sep (quoteState st a) b) := by
  intro sep a
  induction a with
  | nil =>
    intro st
    rw [List.nil_append, scanOk_nil, quoteState_nil, Bool.true_and]
  | cons c rest ih =>
    intro st
    rw [List.cons_append, scanOk_cons, scanOk_cons, quoteState_cons]
    by_cases h1 : c = '"'
    · rw [if_pos h1, if_pos h1, if_pos h1]
      exact ih (!st)
    · rw [if_neg h1, if_neg h1, if_neg h1]
      by_cases h2 : c = sep ∧ st = false
      · rw [if_pos h2, if_pos h2, Bool.false_and]
      · rw [if_neg h2, if_neg h2]
        exact ih st

theorem splitSepQ_append (sep : Char) (l : List Char) : ∀ (x : List Char) (st : Bool),
    scanOk sep st x = true →
    splitSepQ sep st (x ++ l) =
      (x ++ (splitSepQ sep (quoteState st x) l).headI) ::
        (splitSepQ sep (quoteState st x) l).tail := by
  intro x
  induction x with
  | nil =>
    intro st _
    rw [List.nil_append, quoteState_nil, List.nil_append]
    exact (cons_headI_tail (splitSepQ_ne_nil sep st l)).symm
  | cons c rest ih =>
    intro st hscan
    rw [scanOk_cons] at hscan
    rw [List.cons_append, splitSepQ_cons, quoteState_cons]
    by_cases h1 : c = '"'
    · rw [if_pos h1, if_pos h1, ih (!st) (by rwa [if_pos h1] at hscan)]
      rfl
    · rw [if_neg h1, if_neg h1]
      rw [if_neg h1] at hscan
      by_cases h2 : c = sep ∧ st = false
      · rw [if_pos h2] at hscan
        exact Bool.noConfusion hscan
      · rw [if_neg h2] at hscan
        rw [if_neg h2, ih st hscan]
        rfl

theorem splitSepQ_sep_head {sep : Char} (hsep : sep ≠ '"') (l : List Char) :
    splitSepQ sep false (sep :: l) = [] :: splitSepQ sep false l := by
  rw [splitSepQ_cons, if_neg hsep, if_pos ⟨rfl, rfl⟩]

theorem splitSepQ_joinChar {sep : Char} (hsep : sep ≠ '"') :
    ∀ (chunks : List (List Char)), chunks ≠ [] →
    (∀ c ∈ chunks, scanOk sep false c = true ∧ quoteState false c = false) →
    splitSepQ sep false (joinChar sep chunks) = chunks := by
  intro chunks
  induction chunks with
  | nil => intro h _; exact absurd rfl h
  | cons x xs ih =>
    intro _ hmem
    cases xs with
    | nil =>
      have hx := hmem x (List.mem_cons_self ..)
      have h0 := splitSepQ_append sep [] x false hx.1
      rw [List.append_nil] at h0
      show splitSepQ sep false x = [x]
      rw [h0, hx.2, splitSepQ_nil]
      simp
    | cons y ys =>
      have hx := hmem x (List.mem_cons_self ..)
      rw [joinChar_cons2,
        splitSepQ_append sep (sep :: joinChar sep (y :: ys)) x false hx.1,
        hx.2, splitSepQ_sep_head hsep,
        ih (List.cons_ne_nil _ _) (fun c hc => hmem c (List.mem_cons_of_mem _ hc))]
      simp

theorem splitSepQ_joinChar_term {sep : Char} (hsep : sep ≠ '"') :
    ∀ (chunks : List (List Char)), chunks ≠ [] →
    (∀ c ∈ chunks, scanOk sep false c = true ∧ quoteState false c = false) →
    splitSepQ sep false (joinChar sep chunks ++ [sep]) = chunks ++ [[]] := by
  intro chunks
  induction chunks with
  | nil => intro h _; exact absurd rfl h
  | cons x xs ih =>
    intro _ hmem
    cases xs with
    | nil =>
      have hx := hmem x (List.mem_cons_self ..)
      show splitSepQ sep false (x ++ [sep]) = [x] ++ [[]]
      rw [splitSepQ_append sep [sep] x false hx.1, hx.2,
        splitSepQ_sep_head hsep, splitSepQ_nil]
      simp
    | cons y ys =>
      have hx := hmem x (List.mem_cons_self ..)
      rw [joinChar_cons2]
      rw [show (x ++ sep :: joinChar sep (y :: ys)) ++ [sep] =
          x ++ sep :: (joinChar sep (y :: ys) ++ [sep]) by simp]
      rw [splitSepQ_append sep (sep :: (joinChar sep (y :: ys) ++ [sep])) x false hx.1,
        hx.2, splitSepQ_sep_head hsep,
        ih (List.cons_ne_nil _ _) (fun c hc => hmem c (List.mem_cons_of_mem _ hc))]
      simp

theorem scanOk_joinChar {sep j : Char} (hj : j ≠ '"') (hjs : j ≠ sep) :
    ∀ (chunks : List (List Char)),
    (∀ c ∈ chunks, scanOk sep false c = true ∧ quoteState false c = false) →
    scanOk sep false (joinChar j chunks) = true ∧
      quoteState false (joinChar j chunks) = false := by
  intro chunks
  induction chunks with
  | nil => intro _; exact ⟨rfl, rfl⟩
  | cons x xs ih =>
    intro hmem
    cases xs with
    | nil => exact hmem x (List.mem_cons_self ..)
    | cons y ys =>
      have hx := hmem x (List.mem_cons_self ..)
      have hrest := ih (fun c hc => hmem c (List.mem_cons_of_mem _ hc))
      rw [joinChar_cons2]
      constructor
      · rw [scanOk_append, hx.1, hx.2, Bool.true_and, scanOk_cons,
          if_neg hj, if_neg (fun hp => hjs hp.1), hrest.1]
      · rw [quoteState_append, hx.2, quoteState_cons, if_neg hj, hrest.2]

theorem escapeQuotes_scan (sep : Char) : ∀ (l rest : List Char),
    scanOk sep true (escapeQuotes l ++ rest) = scanOk sep true rest := by
  intro l
  induction l with
  | nil => intro rest; rfl
  | cons c t ih =>
    intro rest
    by_cases hc : c = '"'
    · rw [escapeQuotes_cons, if_pos hc, List.cons_append, List.cons_append,
        scanOk_cons, if_pos rfl, scanOk_cons, if_pos rfl]
      simp only [Bool.not_true, Bool.not_false]
      exact ih rest
    · rw [escapeQuotes_cons, if_neg hc, List.cons_append, scanOk_cons,
        if_neg hc, if_neg (fun hp => Bool.noConfusion hp.2)]
      exact ih rest

theorem escapeQuotes_state : ∀ (l rest : List Char),
    quoteState true (escapeQuotes l ++ rest) = quoteState true rest := by
  intro l
  induction l with
  | nil => intro rest; rfl
  | cons c t ih =>
    intro rest
    by_cases hc : c = '"'
    · rw [escapeQuotes_cons, if_pos hc, List.cons_append, List.cons_append,
        quoteState_cons, if_pos rfl, quoteState_cons, if_pos rfl]
      simp only [Bool.not_true, Bool.not_false]
      exact ih rest
    · rw [escapeQuotes_cons, if_neg hc, List.cons_append, quoteState_cons, if_neg hc]
      exact ih rest

theorem collapseQuotes_escape : ∀ l : List Char, collapseQuotes (escapeQuotes l) = l := by
  intro l
  induction l with
  | nil => rfl
  | cons c t ih =>
    by_cases hc : c = '"'
    · rw [escapeQuotes_cons, if_pos hc, collapseQuotes_cons2, if_pos ⟨rfl, rfl⟩, ih, hc]
    · rw [escapeQuotes_cons, if_neg hc]
      cases he : escapeQuotes t with
      | nil =>
        have ht : t = [] := by rw [← ih, he]; rfl
        rw [ht]
        rfl
      | cons e es =>
        rw [collapseQuotes_cons2, if_neg (fun hp => hc hp.1), ← he, ih]

theorem unquoteField_quoteField (l : List Char) : unquoteField (quoteField l) = l := by
  unfold quoteField
  split
  · rw [unquoteField_cons, if_pos rfl,
      show (escapeQuotes l ++ ['"']).dropLast = escapeQuotes l by simp,
      collapseQuotes_escape]
  · next hq =>
    cases l with
    | nil => rfl
    | cons c rest =>
      have hcq : ¬(c = '"') := by
        intro hc
        apply hq
        subst hc
        unfold needsQuote
        exact List.any_eq_true.2 ⟨'"', List.mem_cons_self .., by decide⟩
      rw [unquoteField_cons, if_neg hcq]

theorem scanOk_of_clean {sep : Char} : ∀ {l : List Char},
    (∀ c ∈ l, c ≠ '"' ∧ c ≠ sep) →
    scanOk sep false l = true ∧ quoteState false l = false := by
  intro l
  induction l with
  | nil => intro _; exact ⟨rfl, rfl⟩
  | cons c t ih =>
    intro h
    have hc := h c (List.mem_cons_self ..)
    have ht := ih (fun d hd => h d (List.mem_cons_of_mem _ hd))
    constructor
    · rw [scanOk_cons, if_neg hc.1, if_neg (fun hp => hc.2 hp.1)]
      exact ht.1
    · rw [quoteState_cons, if_neg hc.1]
      exact ht.2

theorem quoteField_scan {sep : Char} (hsep : sep = ',' ∨ sep = '\n') (l : List Char) :
    scanOk sep false (quoteField l) = true ∧ quoteState false (quoteField l) = false := by
  unfold quoteField
  split
  · constructor
    · rw [scanOk_cons, if_pos rfl]
      simp only [Bool.not_false]
      rw [escapeQuotes_scan, scanOk_cons, if_pos rfl]
      rfl
    · rw [quoteState_cons, if_pos rfl]
      simp only [Bool.not_false]
      rw [escapeQuotes_state, quoteState_cons, if_pos rfl]
      rfl
  · next hq =>
    apply scanOk_of_clean
    intro c hcl
    have hp : ¬((c == ',' || c == '"' || c == '\n' || c == '\r') = true) := by
      intro hor
      exact hq (List.any_eq_true.2 ⟨c, hcl, hor⟩)
    simp only [Bool.or_eq_true, beq_iff_eq] at hp
    push_neg at hp
    rcases hsep with rfl | rfl
    · exact ⟨hp.1.1.2, hp.1.1.1⟩
    · exact ⟨hp.1.1.2, hp.1.2⟩

theorem quoteField_ne_nil {l : List Char} (h : l ≠ []) : quoteField l ≠ [] := by
  unfold quoteField
  split
  · exact List.cons_ne_nil _ _
  · exact h

theorem joinChar_ne_nil {j : Char} : ∀ {fs : List (List Char)}, fs ≠ [] →
    (∀ f, fs = [f] → f ≠ []) → joinChar j fs ≠ [] := by
  intro fs h1 h2
  cases fs with
  | nil => exact absurd rfl h1
  | cons f xs =>
    cases xs with
    | nil => exact h2 f rfl
    | cons g rest =>
      rw [joinChar_cons2]
      intro he
      rcases List.append_eq_nil.1 he with ⟨_, h3⟩
      exact List.noConfusion h3

theorem mem_of_getElem? {α : Type} {a : α} : ∀ {l : List α} {j : Nat},
    l[j]? = some a → a ∈ l := by
  intro l
  induction l with
  | nil =>
    intro j h
    rw [List.getElem?_nil] at h
    exact Option.noConfusion h
  | cons b t ih =>
    intro j h
    cases j with
    | zero =>
      rw [List.getElem?_cons_zero, Option.some_inj] at h
      rw [← h]
      exact List.mem_cons_self ..
    | succ k =>
      rw [List.getElem?_cons_succ] at h
      exact List.mem_cons_of_mem _ (ih h)

theorem lt_of_getElem? {α : Type} {a : α} : ∀ {l : List α} {j : Nat},
    l[j]? = some a → j < l.length := by
  intro l
  induction l with
  | nil =>
    intro j h
    rw [List.getElem?_nil] at h
    exact Option.noConfusion h
  | cons b t ih =>
    intro j h
    cases j with
    | zero => exact Nat.succ_pos _
    | succ k =>
      rw [List.getElem?_cons_succ] at h
      exact Nat.succ_lt_succ (ih h)

theorem filter_of_all {α : Type} (p : α → Bool) : ∀ (l : List α),
    (∀ a ∈ l, p a = true) → l.filter p = l := by
  intro l
  induction l with
  | nil => intro _; rfl
  | cons a t ih =>
    intro h
    rw [List.filter_cons, if_pos (h a (List.mem_cons_self ..)),
      ih (fun b hb => h b (List.mem_cons_of_mem _ hb))]

/-! ## Reading back what the writer wrote -/

theorem inferRow_reconstruct (numCols : Nat → Bool) :
    ∀ (r : List Val) (j : Nat),
    (∀ (k : Nat) (q : ℚ), r[k]? = some (Val.num q) →
      numCols (j + k) = true ∧ round2 q = q) →
    (∀ (k : Nat) (s : String), r[k]? = some (Val.str s) → numCols (j + k) = false) →
    inferRow numCols j (r.map csvCell) = r := by
  intro r
  induction r with
  | nil => intro j _ _; rfl
  | cons v rest ih =>
    intro j h1 h2
    rw [List.map_cons, inferRow_cons]
    have hrest : inferRow numCols (j + 1) (rest.map csvCell) = rest := by
      apply ih
      · intro k q hk
        have hh := h1 (k + 1) q (by rw [List.getElem?_cons_succ]; exact hk)
        rwa [show j + (k + 1) = j + 1 + k by omega] at hh
      · intro k s hk
        have hh := h2 (k + 1) s (by rw [List.getElem?_cons_succ]; exact hk)
        rwa [show j + (k + 1) = j + 1 + k by omega] at hh
    rw [hrest]
    cases v with
    | str s =>
      have hns : numCols j = false := by
        have hh := h2 0 s (by rw [List.getElem?_cons_zero])
        rwa [show j + 0 = j from rfl] at hh
      rw [show csvCell (Val.str s) = s from rfl]
      unfold inferCell
      rw [hns]
      rfl
    | num q =>
      have hn := h1 0 q (by rw [List.getElem?_cons_zero])
      rw [show j + 0 = j from rfl] at hn
      rw [show csvCell (Val.num q) = String.mk (fmtNum q) from rfl]
      unfold inferCell
      rw [hn.1, if_pos rfl, parseFloat_fmtNum hn.2]

theorem numericCol_of_all (rows : List (List Val)) (j : Nat)
    (hall : ∀ r ∈ rows, ∃ q : ℚ, r[j]? = some (Val.num q))
    (hround : ∀ r ∈ rows, ∀ q : ℚ, Val.num q ∈ r → round2 q = q) :
    numericCol (rows.map (fun r => r.map csvCell)) j = true := by
  unfold numericCol
  rw [List.all_eq_true]
  intro sr hsr
  rcases List.mem_map.1 hsr with ⟨r, hr, rfl⟩
  rcases hall r hr with ⟨q, hq⟩
  rw [List.getElem?_map, hq]
  simp [csvCell, parseFloat_fmtNum (hround r hr q (mem_of_getElem? hq))]

theorem numericCol_of_witness (rows : List (List Val)) (j : Nat)
    (hw : ∃ r ∈ rows, ∃ s : String, r[j]? = some (Val.str s) ∧ parseFloat s = none) :
    numericCol (rows.map (fun r => r.map csvCell)) j = false := by
  rcases hw with ⟨r, hr, s, hrj, hps⟩
  cases hb : numericCol (rows.map (fun r => r.map csvCell)) j with
  | false => rfl
  | true =>
    exfalso
    unfold numericCol at hb
    rw [List.all_eq_true] at hb
    have hh := hb (r.map csvCell) (List.mem_map.2 ⟨r, hr, rfl⟩)
    rw [List.getElem?_map, hrj] at hh
    have hh2 : (parseFloat s).isSome = true := hh
    rw [hps] at hh2
    exact Bool.noConfusion hh2

/-! ## The CSV file round-trips -/

theorem read_load_csv (df : DataFrame)
    (hcols_ne : df.cols ≠ [])
    (hcols_str : ∀ s ∈ df.cols, s ≠ "")
    (hlen : ∀ r ∈ df.rows, r.length = df.cols.length)
    (hone : ∀ r ∈ df.rows, r ≠ [Val.str ""])
    (hcol : ∀ j, j < df.cols.length →
      (∀ r ∈ df.rows, ∃ q : ℚ, r[j]? = some (Val.num q)) ∨
      ((∀ r ∈ df.rows, ∃ s : String, r[j]? = some (Val.str s)) ∧
        ∃ r ∈ df.rows, ∃ s : String, r[j]? = some (Val.str s) ∧ parseFloat s = none))
    (hnum : ∀ r ∈ df.rows, ∀ q : ℚ, Val.num q ∈ r → round2 q = q) :
    read_csv (load_to_csv df) = some df := by
  have hcells_ne : ∀ cells ∈ df.cols :: df.rows.map (fun r => r.map csvCell),
      cells ≠ [] := by
    intro cells hc
    rcases List.mem_cons.1 hc with rfl | hc2
    · exact hcols_ne
    · rcases List.mem_map.1 hc2 with ⟨r, hr, rfl⟩
      intro hmap
      have hr0 : r = [] := by
        cases r with
        | nil => rfl
        | cons a t => exact List.noConfusion hmap
      have hl0 := hlen r hr
      rw [hr0] at hl0
      exact hcols_ne (List.length_eq_zero.1 hl0.symm)
  have hsingle : ∀ cells ∈ df.cols :: df.rows.map (fun r => r.map csvCell),
      ∀ s : String, cells = [s] → s ≠ "" := by
    intro cells hc s hs
    rcases List.mem_cons.1 hc with rfl | hc2
    · exact hcols_str s (by rw [hs]; exact List.mem_cons_self ..)
    · rcases List.mem_map.1 hc2 with ⟨r, hr, rfl⟩
      have hr1 : r.length = 1 := by
        have hh := congrArg List.length hs
        rwa [List.length_map, List.length_singleton] at hh
      rcases List.length_eq_one.1 hr1 with ⟨v, rfl⟩
      have hv : csvCell v = s := by
        rw [List.map_cons, List.map_nil] at hs
        injection hs
      cases v with
      | num q =>
        intro hs0
        rw [hs0] at hv
        exact fmtNum_ne_nil q (congrArg String.data hv)
      | str t =>
        intro hs0
        apply hone [Val.str t] hr
        rw [show csvCell (Val.str t) = t from rfl] at hv
        rw [hv, hs0]
  have hrecords : ((df.cols.map (fun s => quoteField s.toList)) ::
        df.rows.map (fun r => r.map csvField))
      = (df.cols :: df.rows.map (fun r => r.map csvCell)).map recordOf := by
    rw [List.map_cons]
    congr 1
    rw [List.map_map]
    refine List.map_congr_left ?_
    intro r _
    show r.map csvField = recordOf (r.map csvCell)
    unfold recordOf
    rw [List.map_map]
    rfl

  have hrecne : ∀ cells ∈ df.cols :: df.rows.map (fun r => r.map csvCell),
      recordOf cells ≠ [] := by
    intro cells hcm h0
    apply hcells_ne cells hcm
    unfold recordOf at h0
    cases cells with
    | nil => rfl
    | cons a t => exact List.noConfusion h0
  have hsplit : (((splitSepQ '\n' false (load_to_csv df).toList).filter
        (fun l => !l.isEmpty)).map
        (fun line => (splitSepQ ',' false line).map (fun f => String.mk (unquoteField f))))
      = df.cols :: df.rows.map (fun r => r.map csvCell) := by
    rw [show (load_to_csv df).toList =
        joinChar '\n' (((df.cols.map (fun s => quoteField s.toList)) ::
          df.rows.map (fun r => r.map csvField)).map (joinChar ',')) ++ ['\n'] from rfl]
    rw [hrecords, List.map_map]
    rw [show ((joinChar ',') ∘ recordOf) = lineOf from rfl]
    rw [splitSepQ_joinChar_term (by decide : ('\n' : Char) ≠ '"')
      ((df.cols :: df.rows.map (fun r => r.map csvCell)).map lineOf)
      (by rw [List.map_cons]; exact List.cons_ne_nil _ _)
      (by
        intro line hline
        rcases List.mem_map.1 hline with ⟨cells, _, rfl⟩
        exact scanOk_joinChar (by decide) (by decide) (recordOf cells)
          (by
            intro f hf
            unfold recordOf at hf
            rcases List.mem_map.1 hf with ⟨s, _, rfl⟩
            exact quoteField_scan (Or.inr rfl) s.toList))]
    rw [List.filter_append,
      show List.filter (fun l => !l.isEmpty) [([] : List Char)] = [] from rfl,
      List.append_nil]
    rw [filter_of_all (fun l => !l.isEmpty)
      ((df.cols :: df.rows.map (fun r => r.map csvCell)).map lineOf)
      (by
        intro line hline
        rcases List.mem_map.1 hline with ⟨cells, hcmem, rfl⟩
        have hnn : lineOf cells ≠ [] := by
          apply joinChar_ne_nil (hrecne cells hcmem)
          intro f hf
          unfold recordOf at hf
          have hl1 : cells.length = 1 := by
            have hh := congrArg List.length hf
            rwa [List.length_map, List.length_singleton] at hh
          rcases List.length_eq_one.1 hl1 with ⟨s, rfl⟩
          have hfs : quoteField s.toList = f := by
            rw [List.map_cons, List.map_nil] at hf
            injection hf
          have hs0 : s ≠ "" := hsingle [s] hcmem s rfl
          rw [← hfs]
          apply quoteField_ne_nil
          intro h0
          exact hs0 (toList_eq_nil h0)
        cases he : lineOf cells with
        | nil => exact absurd he hnn
        | cons a t => rfl)]
    rw [List.map_map]
    refine (List.map_congr_left ?_).trans (List.map_id _)
    intro cells hcmem
    show (splitSepQ ',' false (lineOf cells)).map (fun f => String.mk (unquoteField f)) = cells
    unfold lineOf
    rw [splitSepQ_joinChar (by decide : (',' : Char) ≠ '"') (recordOf cells)
      (hrecne cells hcmem)
      (by
        intro f hf
        unfold recordOf at hf
        rcases List.mem_map.1 hf with ⟨s, _, rfl⟩
        exact quoteField_scan (Or.inl rfl) s.toList)]
    unfold recordOf
    rw [List.map_map]
    refine (List.map_congr_left ?_).trans (List.map_id _)
    intro s _
    show String.mk (unquoteField (quoteField s.toList)) = s
    rw [unquoteField_quoteField, mk_toList]
  have hrow : ∀ r ∈ df.rows,
      inferRow (numericCol (df.rows.map (fun r => r.map csvCell))) 0 (r.map csvCell) = r := by
    intro r hr
    apply inferRow_reconstruct
    · intro k q hk
      have hkr : k < r.length := lt_of_getElem? hk
      have hklt : k < df.cols.length := by rw [← hlen r hr]; exact hkr
      refine ⟨?_, hnum r hr q (mem_of_getElem? hk)⟩
      show numericCol (df.rows.map (fun r => r.map csvCell)) (0 + k) = true
      rw [Nat.zero_add]
      rcases hcol k hklt with hA | ⟨hB, _⟩
      · exact numericCol_of_all df.rows k hA hnum
      · rcases hB r hr with ⟨s, hs⟩
        rw [hk] at hs
        injection hs with hs
        exact Val.noConfusion hs
    · intro k s hk
      have hkr : k < r.length := lt_of_getElem? hk
      have hklt : k < df.cols.length := by rw [← hlen r hr]; exact hkr
      show numericCol (df.rows.map (fun r => r.map csvCell)) (0 + k) = false
      rw [Nat.zero_add]
      rcases hcol k hklt with hA | ⟨_, hw⟩
      · rcases hA r hr with ⟨q, hq⟩
        rw [hk] at hq
        injection hq with hq
        exact Val.noConfusion hq
      · exact numericCol_of_witness df.rows k hw
  have hrows_eq : (df.rows.map (fun r => r.map csvCell)).map
      (fun r => inferRow (numericCol (df.rows.map (fun r => r.map csvCell))) 0 r)
      = df.rows := by
    rw [List.map_map]
    refine (List.map_congr_left ?_).trans (List.map_id _)
    intro r hr
    exact hrow r hr
  unfold read_csv
  rw [hsplit]
  dsimp only
  rw [hrows_eq]

/-! ## An em-dash numeric cell aborts the bank extraction -/

theorem bankRows_emdash_error {rows : List RawRow} {r : RawRow} {c2 : Cell}
    (hr : r ∈ rows) (hne : r ≠ []) (h2 : r[2]? = some c2)
    (hdash : hasEmDash (strip c2.text) = true) :
    (bankRows rows).isOk = false := by
  cases hok : bankRows rows with
  | error e => rfl
  | ok recs =>
    exfalso
    rcases bankRows_ok_all hok r hr with ⟨o, ho⟩
    rcases bankRow_ok_ne_nil ho hne with ⟨c1, c2x, v, h1x, h2x, hv⟩
    have hc2 : c2x = c2 := by
      rw [h2x] at h2
      exact Option.some.injEq .. ▸ h2
    subst hc2
    rw [parseFloat_of_emDash (hasEmDash_removeCommas hdash)] at hv
    exact Option.noConfusion hv

/-! ## Progress-log format -/

theorem digitChar_inj {a b : Nat} (ha : a < 10) (hb : b < 10)
    (h : digitChar a = digitChar b) : a = b := by
  have h2 := congrArg charVal h
  rwa [charVal_digitChar a ha, charVal_digitChar b hb] at h2

theorem pad2_inj {a b : Nat} (ha : a < 100) (hb : b < 100) (h : pad2 a = pad2 b) :
    a = b := by
  have hd : [digitChar (a / 10 % 10), digitChar (a % 10)] =
      [digitChar (b / 10 % 10), digitChar (b % 10)] := congrArg String.data h
  injection hd with hd1 hd2
  injection hd2 with hd2 _
  have e1 := digitChar_inj (by omega) (by omega) hd1
  have e2 := digitChar_inj (by omega) (by omega) hd2
  omega

theorem gdpTimestamp_res (t : DateTime) (mi1 s1 mi2 s2 : Nat)
    (hm1 : mi1 < 60) (hs1 : s1 < 60) (hm2 : mi2 < 60) (hs2 : s2 < 60)
    (heq : gdpTimestamp { t with minute := mi1, second := s1 } =
           gdpTimestamp { t with minute := mi2, second := s2 }) :
    mi1 = mi2 ∧ s1 = s2 := by
  have hd := congrArg String.data heq
  simp only [gdpTimestamp, String.data_append] at hd
  have hsp := List.append_inj' hd (by rfl)
  have hs : s1 = s2 :=
    pad2_inj (by omega) (by omega) (string_data_inj hsp.2)
  have hmp := List.append_inj' (List.append_cancel_right hsp.1) (by rfl)
  have hm : mi1 = mi2 :=
    pad2_inj (by omega) (by omega) (string_data_inj hmp.2)
  exact ⟨hm, hs⟩

/-! # Claim theorems -/

/-- C1 (amended): the bank transformer computes each derived currency
column as `round(m * rate, 2)` from the original, unrescaled magnitude
`m`, and the primary column as `round(m / 1000, 2)`; on the two parseable
rows of the spec's scenario with GBP = 0.79 the output is exactly
(Bank A, 1.00, 790.00) and (Bank C, 0.50, 395.40).  (The spec's 3-row
version is amended: the em-dash row makes the bank extraction raise, see
the counterexample.) -/
theorem c1_transform_from_unrescaled :
    (∀ (recs : List BankRecord) (conv : List (String × ℚ)) (c : String) (r : ℚ),
      recs ≠ [] → c ∈ currencies → lookupRate conv c = some r →
      ∃ df warns,
        transform_data (bankDf recs) conv = .ok (df, warns) ∧
        getNumCol df (mcCol c) = .ok (recs.map (fun b => round2 (b.cap * r))) ∧
        getNumCol df "MC_USD_Billion" =
          .ok (recs.map (fun b => round2 (b.cap / 1000)))) ∧
    bankETL [twoRowTable] convGBP =
      .ok ({ cols := ["Bank Name", "MC_USD_Billion", "Market Cap (GBP)"],
             rows := [[Val.str "Bank A", Val.num 1, Val.num 790],
                      [Val.str "Bank C", Val.num (1 / 2), Val.num (3954 / 10)]] },
           [missWarn "EUR", missWarn "INR"]) := by
  constructor
  · intro recs conv c r hne hc hl
    exact ⟨bankFinalDf recs (presentRates conv), missingWarns conv,
      transform_data_run recs conv hne,
      getNumCol_final_currency hc hl recs,
      getNumCol_final_usd recs (presentRates conv)⟩
  · decide

/-- C1 counterexample: on the spec's 3-row table the bank pipeline raises
a ValueError on the em-dash row instead of excluding it, so the output
contains no records at all — the claimed 2-record output is not produced. -/
theorem c1_counterexample :
    bankETL [threeRowTable] convGBP =
      .error "ValueError: could not convert string to float" := by decide

/-- C1 witness: the universal part of the theorem evaluated on a
single-record extraction with the GBP rate present. -/
theorem c1_witness :
    (([⟨"Bank A", (1000 : ℚ)⟩] : List BankRecord) ≠ []) ∧ "GBP" ∈ currencies ∧
    lookupRate convGBP "GBP" = some (79 / 100) ∧
    ∃ df warns,
      transform_data (bankDf [⟨"Bank A", (1000 : ℚ)⟩]) convGBP = .ok (df, warns) ∧
      getNumCol df (mcCol "GBP") =
        .ok (([⟨"Bank A", (1000 : ℚ)⟩] : List BankRecord).map
          (fun b => round2 (b.cap * (79 / 100)))) ∧
      getNumCol df "MC_USD_Billion" =
        .ok (([⟨"Bank A", (1000 : ℚ)⟩] : List BankRecord).map
          (fun b => round2 (b.cap / 1000))) :=
  ⟨by decide, by decide, by decide,
    c1_transform_from_unrescaled.1 [⟨"Bank A", (1000 : ℚ)⟩] convGBP "GBP" (79 / 100)
      (by decide) (by decide) (by decide)⟩

/-- C2 (amended): in the GDP variant no record whose numeric cell carried
the em-dash sentinel ever appears in the extracted Dataset (the row is
skipped); in the bank variant a row whose numeric cell carries the
sentinel makes the whole extraction raise instead of being excluded, so
no output Dataset is produced at all. -/
theorem c2_sentinel_exclusion :
    (∀ (rows : List RawRow) (recs : List GdpRecord),
      gdpRows rows = .ok recs → ∀ g ∈ recs, hasEmDash g.gdp = false) ∧
    (∀ (rows : List RawRow) (r : RawRow) (c2 : Cell),
      r ∈ rows → r ≠ [] → r[2]? = some c2 → hasEmDash (strip c2.text) = true →
      (bankRows rows).isOk = false) := by
  constructor
  · intro rows recs h g hg
    rcases gdpRows_sound h g hg with ⟨r, hr, hok⟩
    rcases gdpRow_ok_some hok with ⟨c0, conts, c2, _, _, _, hdash, _, hgdp⟩
    rw [hgdp]
    exact hdash
  · intro rows r c2 hr hne h2 hdash
    exact bankRows_emdash_error hr hne h2 hdash

/-- C2 counterexample: the bank extractor raises on a row whose numeric
cell is the em-dash sentinel — the row is not merely excluded, so the
claim fails for the bank variant. -/
theorem c2_counterexample :
    bankRows [[cellP "2", cellP "Bank B", cellP "—"]] =
      .error "ValueError: could not convert string to float" := by decide

/-- C2 witness: both parts of the theorem evaluated on concrete rows. -/
theorem c2_witness :
    (gdpRows [[{ text := "India", aContents := some ["India"] }, cellP "x",
        cellP "1,000"]] = .ok [{ country := "India", gdp := "1,000" }]) ∧
    hasEmDash ({ country := "India", gdp := "1,000" } : GdpRecord).gdp = false ∧
    (bankRows [[cellP "2", cellP "Bank B", cellP "—"]]).isOk = false :=
  ⟨by decide,
   c2_sentinel_exclusion.1
     [[{ text := "India", aContents := some ["India"] }, cellP "x", cellP "1,000"]]
     [{ country := "India", gdp := "1,000" }] (by decide)
     { country := "India", gdp := "1,000" } (by decide),
   c2_sentinel_exclusion.2 [[cellP "2", cellP "Bank B", cellP "—"]]
     [cellP "2", cellP "Bank B", cellP "—"] (cellP "—")
     (by decide) (by decide) (by decide) (by decide)⟩

/-- C3 (amended): every record the bank extractor emits comes from a row
with cells at positions 1 and 2, carries the trimmed text of cell 1 as its
identifier (possibly empty) and a successfully parsed decimal (possibly
negative) as its numeric value; every record the GDP extractor emits comes
from a row whose first cell bears a link and whose numeric cell, trimmed,
is free of the em-dash sentinel.  (The spec's non-emptiness and
non-negativity conditions are not enforced by the code, see the
counterexample.) -/
theorem c3_extraction_invariant :
    (∀ (rows : List RawRow) (recs : List BankRecord),
      bankRows rows = .ok recs → ∀ b ∈ recs,
      ∃ r ∈ rows, r ≠ [] ∧ ∃ c1 c2, r[1]? = some c1 ∧ r[2]? = some c2 ∧
        b.name = strip c1.text ∧
        parseFloat (removeCommas (strip c2.text)) = some b.cap) ∧
    (∀ (rows : List RawRow) (recs : List GdpRecord),
      gdpRows rows = .ok recs → ∀ g ∈ recs,
      ∃ r ∈ rows, ∃ c0 conts c2, r[0]? = some c0 ∧ c0.aContents = some conts ∧
        r[2]? = some c2 ∧ hasEmDash (strip c2.text) = false ∧
        conts.head? = some g.country ∧ g.gdp = strip c2.text) := by
  constructor
  · intro rows recs h b hb
    rcases bankRows_sound h b hb with ⟨r, hr, hok⟩
    rcases bankRow_ok_some hok with ⟨hne, c1, c2, h1, h2, hn, hv⟩
    exact ⟨r, hr, hne, c1, c2, h1, h2, hn, hv⟩
  · intro rows recs h g hg
    rcases gdpRows_sound h g hg with ⟨r, hr, hok⟩
    rcases gdpRow_ok_some hok with ⟨c0, conts, c2, h0, hcont, h2, hdash, hcountry, hgdp⟩
    exact ⟨r, hr, c0, conts, c2, h0, hcont, h2, hdash, hcountry, hgdp⟩

/-- C3 counterexample: a row whose name cell is whitespace and whose
numeric cell is a negative number is accepted by the bank extractor: the
emitted record has an empty identifying field and a negative value,
refuting the claimed invariant. -/
theorem c3_counterexample :
    bankRows [[cellP "1", cellP " ", cellP "-5"]] =
      .ok [{ name := "", cap := -5 }] ∧ ¬((0 : ℚ) ≤ -5) := ⟨by decide, by decide⟩

/-- C3 witness: the bank part of the theorem evaluated on one concrete
extraction. -/
theorem c3_witness :
    (bankRows [[cellP "1", cellP "Bank A", cellP "5.00"]] =
      .ok [{ name := "Bank A", cap := 5 }]) ∧
    (({ name := "Bank A", cap := 5 } : BankRecord) ∈
      ([{ name := "Bank A", cap := 5 }] : List BankRecord)) ∧
    (∃ r ∈ [[cellP "1", cellP "Bank A", cellP "5.00"]], r ≠ [] ∧
      ∃ c1 c2, r[1]? = some c1 ∧ r[2]? = some c2 ∧
        ({ name := "Bank A", cap := 5 } : BankRecord).name = strip c1.text ∧
        parseFloat (removeCommas (strip c2.text)) =
          some ({ name := "Bank A", cap := 5 } : BankRecord).cap) :=
  ⟨by decide, by decide,
   c3_extraction_invariant.1 [[cellP "1", cellP "Bank A", cellP "5.00"]]
     [{ name := "Bank A", cap := 5 }] (by decide)
     { name := "Bank A", cap := 5 } (by decide)⟩

/-- C4: a requested currency whose rate is missing from the conversion
table does not make the transformer fail: the run returns a Dataset with
no column for that currency (absent entirely), the warning is logged, and
every derived column whose rate is present is still computed. -/
theorem c4_missing_rate_skipped :
    ∀ (recs : List BankRecord) (conv : List (String × ℚ)) (c : String),
      recs ≠ [] → c ∈ currencies → lookupRate conv c = none →
      ∃ df warns,
        transform_data (bankDf recs) conv = .ok (df, warns) ∧
        mcCol c ∉ df.cols ∧
        missWarn c ∈ warns ∧
        (∀ (c' : String) (r' : ℚ), c' ∈ currencies → lookupRate conv c' = some r' →
          getNumCol df (mcCol c') = .ok (recs.map (fun b => round2 (b.cap * r')))) := by
  intro recs conv c hne hc hl
  exact ⟨bankFinalDf recs (presentRates conv), missingWarns conv,
    transform_data_run recs conv hne,
    mcCol_not_mem_final hc hl recs,
    missWarn_mem hc hl,
    fun c' r' hc' hl' => getNumCol_final_currency hc' hl' recs⟩

/-- C4 witness: the theorem evaluated with a conversion table that has a
GBP rate but no EUR rate. -/
theorem c4_witness :
    (([⟨"Bank A", (1000 : ℚ)⟩] : List BankRecord) ≠ []) ∧ "EUR" ∈ currencies ∧
    lookupRate convGBP "EUR" = none ∧
    ∃ df warns,
      transform_data (bankDf [⟨"Bank A", (1000 : ℚ)⟩]) convGBP = .ok (df, warns) ∧
      mcCol "EUR" ∉ df.cols ∧
      missWarn "EUR" ∈ warns ∧
      (∀ (c' : String) (r' : ℚ), c' ∈ currencies → lookupRate convGBP c' = some r' →
        getNumCol df (mcCol c') =
          .ok (([⟨"Bank A", (1000 : ℚ)⟩] : List BankRecord).map
            (fun b => round2 (b.cap * r')))) :=
  ⟨by decide, by decide, by decide,
    c4_missing_rate_skipped [⟨"Bank A", (1000 : ℚ)⟩] convGBP "EUR"
      (by decide) (by decide) (by decide)⟩

/-- C5: the store load is idempotent: writing a Dataset to the named
table twice (replace semantics) leaves the same store as writing it once,
and the table then holds exactly that Dataset. -/
theorem c5_load_to_db_idempotent :
    ∀ (df : DataFrame) (store : Store) (table_name : String),
      load_to_db df (load_to_db df store table_name) table_name =
        load_to_db df store table_name ∧
      load_to_db df store table_name table_name = some df := by
  intro df store tn
  constructor
  · funext n
    unfold load_to_db
    by_cases h : n = tn <;> simp [h]
  · unfold load_to_db
    simp

/-- C6: the transformer's rounding is idempotent:
`round(round(x, 2), 2) = round(x, 2)` for every value `x`. -/
theorem c6_round_idempotent : ∀ q : ℚ, round2 (round2 q) = round2 q := by
  intro q
  unfold round2
  rw [div_mul_cancel₀ _ (by norm_num : (100 : ℚ) ≠ 0), rhe_int]

/-- C7: file round-trip: serializing a transformed Dataset to the CSV
file (header row, comma-delimited, no index column, fields quoted per
`QUOTE_MINIMAL` so delimiter-bearing cells survive) and reading it back
with per-column type inference yields the same Dataset — identifiers
verbatim and numeric values exactly equal (hence within the claimed
0.01). The hypotheses state what every real frame the pipelines write
provides: non-empty column names, rectangular rows, per-column
homogeneous cell types with each text column containing some value that
does not look numeric, no single-celled row holding only the empty
string, and numeric values already rounded to 2 places. -/
theorem c7_csv_roundtrip :
    ∀ df : DataFrame,
      df.cols ≠ [] →
      (∀ s ∈ df.cols, s ≠ "") →
      (∀ r ∈ df.rows, r.length = df.cols.length) →
      (∀ r ∈ df.rows, r ≠ [Val.str ""]) →
      (∀ j, j < df.cols.length →
        (∀ r ∈ df.rows, ∃ q : ℚ, r[j]? = some (Val.num q)) ∨
        ((∀ r ∈ df.rows, ∃ s : String, r[j]? = some (Val.str s)) ∧
          ∃ r ∈ df.rows, ∃ s : String, r[j]? = some (Val.str s) ∧ parseFloat s = none)) →
      (∀ r ∈ df.rows, ∀ q : ℚ, Val.num q ∈ r → round2 q = q) →
      read_csv (load_to_csv df) = some df :=
  fun df h1 h2 h3 h4 h5 h6 => read_load_csv df h1 h2 h3 h4 h5 h6

/-- C7 witness: the round-trip evaluated on a concrete transformed
frame whose identifier contains the delimiter. -/
theorem c7_witness :
    (c7df.cols ≠ [] ∧ (∀ s ∈ c7df.cols, s ≠ "") ∧
      (∀ r ∈ c7df.rows, r.length = c7df.cols.length) ∧
      (∀ r ∈ c7df.rows, r ≠ [Val.str ""])) ∧
    read_csv (load_to_csv c7df) = some c7df :=
  ⟨⟨by decide, by decide, by decide, by decide⟩,
   c7_csv_roundtrip c7df (by decide) (by decide) (by decide) (by decide)
     (by
       intro j hj
       have hj2 : j = 0 ∨ j = 1 := by
         rw [show c7df.cols.length = 2 from rfl] at hj
         omega
       rcases hj2 with rfl | rfl
       · right
         constructor
         · intro r hr
           rw [show c7df.rows = [[Val.str "Bank A, Inc", Val.num 1]] from rfl,
             List.mem_singleton] at hr
           subst hr
           exact ⟨"Bank A, Inc", rfl⟩
         · exact ⟨[Val.str "Bank A, Inc", Val.num 1],
             List.mem_singleton.2 rfl, "Bank A, Inc", rfl, by decide⟩
       · left
         intro r hr
         rw [show c7df.rows = [[Val.str "Bank A, Inc", Val.num 1]] from rfl,
           List.mem_singleton] at hr
         subst hr
         exact ⟨1, rfl⟩)
     (by
       intro r hr q hq
       rw [show c7df.rows = [[Val.str "Bank A, Inc", Val.num 1]] from rfl,
         List.mem_singleton] at hr
       subst hr
       rcases List.mem_cons.1 hq with h | h
       · exact Val.noConfusion h
       · rw [List.mem_singleton] at h
         injection h with h
         rw [h]
         decide)⟩

/-- C8 (amended): the bank variant's `main` wraps its whole body in
`try/except`, logs a failure at critical severity and never re-raises;
the GDP variant's `main` has no such wrapper, so a stage failure
propagates to its caller. -/
theorem c8_top_level_handling :
    (∀ (doc : Except String (List (List RawRow)))
       (conv : Except String (List (String × ℚ))) (store0 : Store),
      (bankMain doc conv store0).raised = none ∧
      (∀ e, bankRun doc conv store0 = .error e →
        (bankMain doc conv store0).criticalLog = ["ETL process failed: " ++ e])) ∧
    (∀ (doc0 : Except String (List (List RawRow))) (store0 : Store) (e : String),
      doc0 = .error e → (gdpMain doc0 store0).raised = some e) := by
  constructor
  · intro doc conv store0
    constructor
    · unfold bankMain
      cases bankRun doc conv store0 <;> rfl
    · intro e he
      unfold bankMain
      rw [he]
  · intro doc0 store0 e he
    subst he
    rfl

/-- C8 counterexample: a failing fetch makes the GDP `main` propagate the
exception to its caller, refuting the claim that both variants' run
wrappers catch every fatal error. -/
theorem c8_counterexample :
    (gdpMain (Except.error "ConnectionError") (fun _ => none)).raised ≠ none := by
  decide

/-- C8 witness: both parts of the theorem evaluated on concrete failing
runs. -/
theorem c8_witness :
    (bankMain (.error "boom") (.ok []) (fun _ => none)).raised = none ∧
    (bankMain (.error "boom") (.ok []) (fun _ => none)).criticalLog =
      ["ETL process failed: " ++ "boom"] ∧
    (gdpMain (.error "boom") (fun _ => none)).raised = some "boom" :=
  ⟨(c8_top_level_handling.1 (.error "boom") (.ok []) (fun _ => none)).1,
   (c8_top_level_handling.1 (.error "boom") (.ok []) (fun _ => none)).2 "boom" rfl,
   c8_top_level_handling.2 (.error "boom") (fun _ => none) "boom" rfl⟩

/-- C9 (amended): the GDP variant appends one line of the form
`<timestamp> : <message>` per event to its log; the bank variant instead
appends one line of the form `<timestamp> - <LEVEL> - <message>` (the
`logging` format of its `basicConfig`); both timestamps carry
minute/second resolution (distinct minutes/seconds give distinct
timestamps), and both logs are append-only. -/
theorem c9_log_format :
    (∀ (t : DateTime) (message : String) (file : List String),
      log_progress t message file = file ++ [gdpTimestamp t ++ " : " ++ message]) ∧
    (∀ (t : DateTime) (lvl msg : String) (file : List String),
      bankLogWrite t lvl msg file =
        file ++ [bankTimestamp t ++ " - " ++ lvl ++ " - " ++ msg]) ∧
    (∀ (t : DateTime) (mi1 s1 mi2 s2 : Nat),
      mi1 < 60 → s1 < 60 → mi2 < 60 → s2 < 60 →
      gdpTimestamp { t with minute := mi1, second := s1 } =
        gdpTimestamp { t with minute := mi2, second := s2 } →
      mi1 = mi2 ∧ s1 = s2) :=
  ⟨fun _ _ _ => rfl, fun _ _ _ _ => rfl,
   fun t mi1 s1 mi2 s2 hm1 hs1 hm2 hs2 heq =>
     gdpTimestamp_res t mi1 s1 mi2 s2 hm1 hs1 hm2 hs2 heq⟩

/-- C9 counterexample: a bank-variant log event is not of the
`<timestamp> : <message>` form — its separator is ` - ` with an
interposed level name. -/
theorem c9_counterexample :
    bankLogWrite ⟨2024, 1, 1, 0, 0, 0⟩ "INFO" "Starting data extraction." [] ≠
      [bankTimestamp ⟨2024, 1, 1, 0, 0, 0⟩ ++ " : " ++ "Starting data extraction."] := by
  decide

/-- C9 witness: the resolution part of the theorem evaluated at a
concrete timestamp. -/
theorem c9_witness :
    (30 < 60 ∧ 45 < 60) ∧ (30 = 30 ∧ 45 = 45) :=
  ⟨⟨by decide, by decide⟩,
   c9_log_format.2.2 ⟨2024, 1, 1, 0, 0, 0⟩ 30 45 30 45
     (by decide) (by decide) (by decide) (by decide) rfl⟩

/-- C10: renaming preserves position, so the transformed bank Dataset's
column order is exactly `Bank Name`, `MC_USD_Billion`, then one
`Market Cap (<C>)` column per currency whose rate was found, in the fixed
request order GBP, EUR, INR — derived columns appended after the
originals, never interleaved. -/
theorem c10_column_order :
    ∀ (recs : List BankRecord) (conv : List (String × ℚ)) (df : DataFrame)
      (warns : List String),
      recs ≠ [] →
      transform_data (bankDf recs) conv = .ok (df, warns) →
      df.cols = ["Bank Name", "MC_USD_Billion"] ++
        (currencies.filter (fun c => (lookupRate conv c).isSome)).map mcCol := by
  intro recs conv df warns hne htr
  rw [transform_data_run recs conv hne] at htr
  simp only [Except.ok.injEq, Prod.mk.injEq] at htr
  rw [← htr.1]
  have h1 : (presentRates conv).map (fun p => mcCol p.1) =
      ((presentRates conv).map Prod.fst).map mcCol := by
    rw [List.map_map]
    rfl
  show ["Bank Name", "MC_USD_Billion"] ++ (presentRates conv).map (fun p => mcCol p.1) = _
  rw [h1, presentRates_fst]

/-- C10 witness: the theorem evaluated on a concrete one-record
transformation with only the GBP rate present. -/
theorem c10_witness :
    (([⟨"Bank A", (1000 : ℚ)⟩] : List BankRecord) ≠ []) ∧
    transform_data (bankDf [⟨"Bank A", (1000 : ℚ)⟩]) convGBP =
      .ok ({ cols := ["Bank Name", "MC_USD_Billion", "Market Cap (GBP)"],
             rows := [[Val.str "Bank A", Val.num 1, Val.num 790]] },
           [missWarn "EUR", missWarn "INR"]) ∧
    ({ cols := ["Bank Name", "MC_USD_Billion", "Market Cap (GBP)"],
       rows := [[Val.str "Bank A", Val.num 1, Val.num 790]] } : DataFrame).cols =
      ["Bank Name", "MC_USD_Billion"] ++
        (currencies.filter (fun c => (lookupRate convGBP c).isSome)).map mcCol :=
  ⟨by decide, by decide,
   c10_column_order [⟨"Bank A", (1000 : ℚ)⟩] convGBP
     { cols := ["Bank Name", "MC_USD_Billion", "Market Cap (GBP)"],
       rows := [[Val.str "Bank A", Val.num 1, Val.num 790]] }
     [missWarn "EUR", missWarn "INR"] (by decide) (by decide)⟩

end ETL
